import Mathlib

/-!
Verification of the mcp-latex-tools repository: a shallow embedding of the
four tool modules (`validate.py`, `compile.py`, `pdf_info.py`, `cleanup.py`)
and proofs about the claims of the specification.

Conventions of the embedding:
* LaTeX source text is a `List Char` (Python iterates strings character by
  character).
* The filesystem is explicit state: a record of existing file paths and
  directory paths, where a path is a list of components (`List String`).
* External effects (a spawned compiler process, `unlink`, `copy2`, `mkdir`)
  are oracles passed in as record fields, so a run of the embedded code is a
  pure function of the oracle values.
* Wall-clock timing fields of the result records are not modelled.
* Python `re` searches are hand-rolled scanners with the same backtracking
  semantics on the concrete patterns used by the source.
-/

namespace MCPLaTeX

/-! ## Generic string helpers shared by the modules -/

/-- Python `\s` whitespace class (ASCII part): space, tab, newline, carriage
return, form feed, vertical tab. -/
def isPyWS (c : Char) : Bool :=
  c = ' ' || c = '\t' || c = '\n' || c = '\r' || c = '\x0c' || c = '\x0b'

/-- Python `\w` word-character class (ASCII part): letters, digits,
underscore. -/
def isWordChar (c : Char) : Bool :=
  c.isAlphanum || c = '_'

/-- Skip a maximal run of `\s*` whitespace. -/
def skipWS (cs : List Char) : List Char := cs.dropWhile isPyWS

/-- Boolean test that `pre` is an initial segment of `l`
(component-wise, used both for char lists and path component lists). -/
def listStartsWith {α : Type} [DecidableEq α] : List α → List α → Bool
  | [], _ => true
  | _ :: _, [] => false
  | a :: as, b :: bs => a = b && listStartsWith as bs

theorem listStartsWith_iff {α : Type} [DecidableEq α] :
    ∀ (pre l : List α), listStartsWith pre l = true ↔ ∃ t, l = pre ++ t
  | [], l => by simp [listStartsWith]
  | a :: as, [] => by simp [listStartsWith]
  | a :: as, b :: bs => by
      simp only [listStartsWith, Bool.and_eq_true, decide_eq_true_eq,
        listStartsWith_iff as bs]
      constructor
      · rintro ⟨rfl, t, rfl⟩
        exact ⟨t, rfl⟩
      · rintro ⟨t, h⟩
        cases h
        exact ⟨rfl, t, rfl⟩

/-! ## `validate.py`: the structural validator

The embedding covers the error-producing part of `validate_latex`
(`validate.py` lines 64–102).  Warnings (package heuristics, strict-mode
style checks) never enter the error list and are not needed by any claim.
The path / mode-flag validation raises before any content is read, so the
content-level checks are modelled as functions of the text alone. -/

/-- Scanner for the lazy regex fragment `.*?c`: look for `close`, where `.`
matches anything except a newline; at every candidate close position the
continuation `k` is tried, and on failure the scan resumes (backtracking of
a lazy star). -/
def scanCloseThen (close : Char) (k : List Char → Bool) : List Char → Bool
  | [] => false
  | c :: rest => (c = close && k rest) || (c ≠ '\n' && scanCloseThen close k rest)

/-- Matcher for the regex fragment `\{.*?\}` at the head of the input. -/
def lazyBraces (cs : List Char) : Bool :=
  match cs with
  | '{' :: r => scanCloseThen '}' (fun _ => true) r
  | _ => false

/-- Matcher for `\\documentclass\s*(\[.*?\])?\s*\{.*?\}` anchored at the
head of the input. -/
def matchDocclassAt (cs : List Char) : Bool :=
  match cs with
  | '\\' :: r =>
    ("documentclass".data.isPrefixOf r) &&
    (let r2 := skipWS (r.drop 13)
     (lazyBraces r2 ||
      (match r2 with
       | '[' :: r3 => scanCloseThen ']' (fun r4 => lazyBraces (skipWS r4)) r3
       | _ => false)))
  | _ => false

/-- Matcher for `\\begin\s*\{document\}` anchored at the head. -/
def matchBeginDocAt (cs : List Char) : Bool :=
  match cs with
  | '\\' :: r =>
    ("begin".data.isPrefixOf r) &&
    ("{document}".data.isPrefixOf (skipWS (r.drop 5)))
  | _ => false

/-- Matcher for `\\end\s*\{document\}` anchored at the head. -/
def matchEndDocAt (cs : List Char) : Bool :=
  match cs with
  | '\\' :: r =>
    ("end".data.isPrefixOf r) &&
    ("{document}".data.isPrefixOf (skipWS (r.drop 3)))
  | _ => false

/-- `re.search` existence: some suffix of the text matches the anchored
pattern. -/
def searchAny (p : List Char → Bool) (cs : List Char) : Bool :=
  cs.tails.any p

/-- Document-shell errors of `validate.py` lines 67–75, in source order. -/
def structureErrors (content : List Char) : List String :=
  (if searchAny matchDocclassAt content then []
   else ["Missing \\documentclass command"]) ++
  (if searchAny matchBeginDocAt content then []
   else ["Missing \\begin{document}"]) ++
  (if searchAny matchEndDocAt content then []
   else ["Missing \\end{document}"])

/-- The brace-counting loop of `validate.py` lines 78–86: threads the signed
counter; returns the counter at loop exit and whether the negative-dip error
fired (the `break` leaves the loop at the first dip). -/
def braceLoop : List Char → Int → Int × Bool
  | [], n => (n, false)
  | c :: rest, n =>
    let n' := if c = '{' then n + 1 else if c = '}' then n - 1 else n
    if n' < 0 then (n', true) else braceLoop rest n'

/-- The brace errors of `validate.py` lines 77–90: the in-loop dip error
followed by the post-loop summary error. -/
def braceErrors (content : List Char) : List String :=
  (if (braceLoop content 0).2 then ["Unmatched closing brace \x7d"] else []) ++
  (if (braceLoop content 0).1 > 0 then
     ["Unmatched opening braces: " ++ toString (braceLoop content 0).1 ++ " unclosed"]
   else if (braceLoop content 0).1 < 0 then
     ["Unmatched closing braces: " ++ toString (braceLoop content 0).1.natAbs ++ " extra"]
   else [])

/-- Matcher for `\\begin\s*\{(\w+)\}` anchored right after a leading
backslash: returns the captured name and the rest of the input after the
match.  `\w+` greedily takes a maximal run; since the next pattern char `}`
is not a word char, maximal munch is exact. -/
def tryBeginEnv (r : List Char) : Option (String × List Char) :=
  if "begin".data.isPrefixOf r then
    match skipWS (r.drop 5) with
    | '{' :: r3 =>
      let w := r3.takeWhile isWordChar
      if w ≠ [] then
        match r3.dropWhile isWordChar with
        | '}' :: r5 => some (w.asString, r5)
        | _ => none
      else none
    | _ => none
  else none

/-- `re.findall(r"\\begin\s*\{(\w+)\}", content)`: collect the captured
environment names left to right.  `findall` resumes scanning after each
match; since the interior of a match (letters of `begin`, whitespace,
braces, word characters) never contains a backslash, no match can start
inside another, and scanning every position collects exactly the same
names in the same order. -/
def findEnvs : List Char → List String
  | [] => []
  | c :: rest =>
    match (if c = '\\' then tryBeginEnv rest else none) with
    | some (w, _) => w :: findEnvs rest
    | none => findEnvs rest

/-- Matcher for `\\end\s*\{(\w+)\}` anchored right after a leading
backslash. -/
def tryEndEnv (r : List Char) : Option (String × List Char) :=
  if "end".data.isPrefixOf r then
    match skipWS (r.drop 3) with
    | '{' :: r3 =>
      let w := r3.takeWhile isWordChar
      if w ≠ [] then
        match r3.dropWhile isWordChar with
        | '}' :: r5 => some (w.asString, r5)
        | _ => none
      else none
    | _ => none
  else none

/-- `re.findall(r"\\end\s*\{(\w+)\}", content)`, scanned position by
position (no match can start inside another, as for `findEnvs`). -/
def findEnds : List Char → List String
  | [] => []
  | c :: rest =>
    match (if c = '\\' then tryEndEnv rest else none) with
    | some (w, _) => w :: findEnds rest
    | none => findEnds rest

/-- `re.search(rf"\\end\s*\{{{env}\}}", content)`: the environment name is
interpolated literally (it consists of word characters only). -/
def searchEndEnv (env : String) (content : List Char) : Bool :=
  searchAny (fun t =>
    match t with
    | '\\' :: r =>
      ("end".data.isPrefixOf r) &&
      (('{' :: (env.data ++ ['}'])).isPrefixOf (skipWS (r.drop 3)))
    | _ => false) content

/-- `re.search(rf"\\begin\s*\{{{env}\}}", content)`. -/
def searchBeginEnv (env : String) (content : List Char) : Bool :=
  searchAny (fun t =>
    match t with
    | '\\' :: r =>
      ("begin".data.isPrefixOf r) &&
      (('{' :: (env.data ++ ['}'])).isPrefixOf (skipWS (r.drop 5)))
    | _ => false) content

/-- Errors of `validate.py` lines 92–96: every collected `\begin{name}`
whose name has no `\end{name}` match anywhere in the document. -/
def unclosedEnvErrors (content : List Char) : List String :=
  (findEnvs content).filterMap (fun env =>
    if searchEndEnv env content then none
    else some ("Unclosed environment: " ++ env))

/-- Errors of `validate.py` lines 98–102: every collected `\end{name}` whose
name has no `\begin{name}` match anywhere in the document. -/
def endedWithoutBeginErrors (content : List Char) : List String :=
  (findEnds content).filterMap (fun env =>
    if searchBeginEnv env content then none
    else some ("Environment ended without begin: " ++ env))

/-- The full error list accumulated by `validate_latex` for a given text, in
source order (`validate.py` lines 64–102).  `is_valid` of the returned
result is `errors = []`. -/
def validateErrors (content : List Char) : List String :=
  structureErrors content ++ braceErrors content ++
    unclosedEnvErrors content ++ endedWithoutBeginErrors content

example : validateErrors "\\documentclass{article}\\begin{document}x\\end{document}".data = [] := by decide

example : findEnvs "\\begin{foo}x\\begin {bar}".data = ["foo", "bar"] := by decide

example : braceErrors "\x7d\x7b".data = ["Unmatched closing brace \x7d", "Unmatched closing braces: 1 extra"] := by decide

/-- The brace difference as the specification words it: `{` minus `}`,
ignoring escaped braces `\{` and `\}`.  This definition follows the spec's
words (not the source) and exists to compare the two. -/
def specNetBracesIgnoringEscapes : List Char → Int
  | [] => 0
  | '\\' :: c :: rest =>
    if c = '{' ∨ c = '}' then specNetBracesIgnoringEscapes rest
    else specNetBracesIgnoringEscapes (c :: rest)
  | '{' :: rest => specNetBracesIgnoringEscapes rest + 1
  | '}' :: rest => specNetBracesIgnoringEscapes rest - 1
  | _ :: rest => specNetBracesIgnoringEscapes rest

/-- The signed brace difference the source actually computes with: every
`{` and `}` character counts, escaped or not. -/
def netBraces (cs : List Char) : Int :=
  (cs.count '{' : Int) - (cs.count '}' : Int)

theorem netBraces_cons (c : Char) (l : List Char) :
    netBraces (c :: l) = netBraces [c] + netBraces l := by
  unfold netBraces
  by_cases h1 : c = '{' <;> by_cases h2 : c = '}' <;>
    simp_all [List.count_cons] <;> ring

theorem braceStep (c : Char) (n : Int) :
    (if c = '{' then n + 1 else if c = '}' then n - 1 else n) = n + netBraces [c] := by
  by_cases h1 : c = '{' <;> by_cases h2 : c = '}' <;>
    simp_all [netBraces, List.count_cons] <;> ring

theorem singleton_mem_inits (c : Char) (rest : List Char) :
    [c] ∈ (c :: rest).inits := by
  rw [List.mem_inits]
  exact ⟨rest, rfl⟩

theorem cons_mem_inits {pre rest : List Char} (c : Char) (h : pre ∈ rest.inits) :
    (c :: pre) ∈ (c :: rest).inits := by
  rw [List.mem_inits] at h ⊢
  obtain ⟨t, ht⟩ := h
  exact ⟨t, by simp [← ht]⟩

/-- Helper for the claim C4 analysis: if the running counter stays
non-negative on every prefix, the loop finishes without the dip error and
returns the total difference. -/
theorem braceLoop_of_nonneg :
    ∀ (cs : List Char) (n : Int),
      (∀ pre ∈ cs.inits, 0 ≤ n + netBraces pre) →
      braceLoop cs n = (n + netBraces cs, false)
  | [], n => by
      intro _
      simp [braceLoop, netBraces]
  | c :: rest, n => by
      intro h
      have hc : 0 ≤ n + netBraces [c] := h [c] (singleton_mem_inits c rest)
      have hrest : ∀ pre ∈ rest.inits, 0 ≤ (n + netBraces [c]) + netBraces pre := by
        intro pre hpre
        have := h (c :: pre) (cons_mem_inits c hpre)
        rw [netBraces_cons] at this
        omega
      have hind := braceLoop_of_nonneg rest (n + netBraces [c]) hrest
      simp only [braceLoop, braceStep]
      rw [if_neg (by omega)]
      rw [hind, Prod.mk.injEq]
      refine ⟨?_, rfl⟩
      have hcc := netBraces_cons c rest
      omega

/-- Helper for the claim C4 analysis: if some prefix dips below zero, the
loop fires the dip error and exits with a negative counter. -/
theorem braceLoop_of_dip :
    ∀ (cs : List Char) (n : Int), 0 ≤ n →
      (∃ pre ∈ cs.inits, n + netBraces pre < 0) →
      (braceLoop cs n).2 = true ∧ (braceLoop cs n).1 < 0
  | [], n => by
      intro hn h
      obtain ⟨pre, hpre, hneg⟩ := h
      simp [List.inits] at hpre
      subst hpre
      simp [netBraces] at hneg
      omega
  | c :: rest, n => by
      intro hn h
      by_cases hd : n + netBraces [c] < 0
      · simp only [braceLoop, braceStep]
        rw [if_pos hd]
        exact ⟨rfl, hd⟩
      · push_neg at hd
        obtain ⟨pre, hpre, hneg⟩ := h
        rw [List.inits_cons, List.mem_cons] at hpre
        rcases hpre with rfl | hpre
        · simp [netBraces] at hneg
          omega
        · rw [List.mem_map] at hpre
          obtain ⟨q, hq, rfl⟩ := hpre
          rw [netBraces_cons] at hneg
          have hind := braceLoop_of_dip rest (n + netBraces [c]) hd ⟨q, hq, by omega⟩
          simp only [braceLoop, braceStep]
          rw [if_neg (by omega)]
          exact hind

/-- The brace error list is empty exactly when the scan loop ends in state
`(0, no dip)`. -/
theorem braceErrors_eq_nil (content : List Char) :
    braceErrors content = [] ↔ braceLoop content 0 = (0, false) := by
  unfold braceErrors
  rcases hbl : braceLoop content 0 with ⟨n, d⟩
  constructor
  · intro h
    rcases List.append_eq_nil.mp h with ⟨h1, h2⟩
    have hd : d = false := by
      cases d
      · rfl
      · simp at h1
    subst hd
    have hn : n = 0 := by
      by_cases hpos : n > 0
      · rw [if_pos hpos] at h2
        simp at h2
      · by_cases hneg : n < 0
        · rw [if_neg hpos, if_pos hneg] at h2
          simp at h2
        · omega
    simp [hn]
  · intro h
    have h1 : n = 0 := by
      have := congrArg Prod.fst h
      simpa using this
    have h2 : d = false := by
      have := congrArg Prod.snd h
      simpa using this
    simp [h1, h2]

/-- Claim C4 fails on the source: the text `\{` has brace difference zero
when escaped braces are ignored (the spec's counting), yet the validator
reports the brace-count error `Unmatched opening braces: 1 unclosed`,
because `validate.py` lines 78–83 count every brace character, escaped or
not.  The text has no negative dip, so the documented double-report edge
case does not apply. -/
theorem C4_counterexample :
    specNetBracesIgnoringEscapes "\\\x7b".data = 0 ∧
    braceErrors "\\\x7b".data = ["Unmatched opening braces: 1 unclosed"] ∧
    "Unmatched opening braces: 1 unclosed" ∈ validateErrors "\\\x7b".data := by
  refine ⟨by decide, by decide, ?_⟩
  decide

/-- Claim C4 amended: counting every `{` and `}` character (escaped braces
included), the validator reports no brace-count error if and only if the
total difference is zero and no prefix of the text contains more `}` than
`{` characters. -/
theorem C4_main (content : List Char) :
    braceErrors content = [] ↔
      (netBraces content = 0 ∧
        ∀ pre ∈ content.inits, (pre.count '}' : Int) ≤ (pre.count '{' : Int)) := by
  rw [braceErrors_eq_nil]
  constructor
  · intro h
    by_cases hdip : ∃ pre ∈ content.inits, (0 : Int) + netBraces pre < 0
    · exfalso
      have := (braceLoop_of_dip content 0 le_rfl hdip).1
      rw [h] at this
      simp at this
    · push_neg at hdip
      have hpre : ∀ pre ∈ content.inits, 0 ≤ (0 : Int) + netBraces pre := by
        intro pre hp
        exact hdip pre hp
      have hloop := braceLoop_of_nonneg content 0 hpre
      rw [h] at hloop
      have hz : netBraces content = 0 := by
        have := congrArg Prod.fst hloop
        simp at this
        omega
      refine ⟨hz, ?_⟩
      intro pre hp
      have := hpre pre hp
      unfold netBraces at this
      omega
  · rintro ⟨hzero, hpre⟩
    have hpre' : ∀ pre ∈ content.inits, 0 ≤ (0 : Int) + netBraces pre := by
      intro pre hp
      have := hpre pre hp
      unfold netBraces
      omega
    have hloop := braceLoop_of_nonneg content 0 hpre'
    rw [hloop, hzero]
    norm_num

/-- Witness instantiating `C4_main` on the balanced text `{a}`. -/
theorem C4_witness : braceErrors "{a}".data = [] :=
  (C4_main "{a}".data).mpr ⟨by decide, by decide⟩

/-- Claim C3 fails on the source: in the text `\end{foo}\begin{foo}` the
`\begin{foo}` has no later `\end{foo}` (the only `\end{foo}` precedes it),
and the `\end{foo}` has no prior `\begin{foo}`, yet the validator emits
neither environment error, because `validate.py` lines 92–102 search for a
partner anywhere in the text, not positionally. -/
theorem C3_counterexample :
    findEnvs ("\\end{foo}\\begin{foo}").data = ["foo"] ∧
    searchEndEnv "foo" "\\begin{foo}".data = false ∧
    ("\\end{foo}\\begin{foo}").data = "\\end{foo}".data ++ "\\begin{foo}".data ∧
    "Unclosed environment: foo" ∉ validateErrors ("\\end{foo}\\begin{foo}").data ∧
    "Environment ended without begin: foo" ∉
      validateErrors ("\\end{foo}\\begin{foo}").data := by
  refine ⟨by decide, by decide, by decide, ?_, ?_⟩ <;> decide

/-- Claim C3 amended (existence-based, matching the source): for any text,
if `X` is collected from a `\begin{X}` occurrence and no `\end{X}` occurs
anywhere in the text, the error list contains `Unclosed environment: X`;
symmetrically, if `Y` is collected from an `\end{Y}` occurrence and no
`\begin{Y}` occurs anywhere, the error list contains
`Environment ended without begin: Y`. -/
theorem C3_main (content : List Char) (X : String) :
    (X ∈ findEnvs content → searchEndEnv X content = false →
      ("Unclosed environment: " ++ X) ∈ validateErrors content) ∧
    (X ∈ findEnds content → searchBeginEnv X content = false →
      ("Environment ended without begin: " ++ X) ∈ validateErrors content) := by
  constructor
  · intro hmem hsearch
    have : ("Unclosed environment: " ++ X) ∈ unclosedEnvErrors content := by
      rw [unclosedEnvErrors, List.mem_filterMap]
      exact ⟨X, hmem, by rw [if_neg (by simp [hsearch])]⟩
    unfold validateErrors
    simp only [List.mem_append]
    tauto
  · intro hmem hsearch
    have : ("Environment ended without begin: " ++ X) ∈
        endedWithoutBeginErrors content := by
      rw [endedWithoutBeginErrors, List.mem_filterMap]
      exact ⟨X, hmem, by rw [if_neg (by simp [hsearch])]⟩
    unfold validateErrors
    simp only [List.mem_append]
    tauto

/-- Witness instantiating `C3_main`: an unclosed `\begin{alpha}` and a
beginless `\end{beta}` each produce their error. -/
theorem C3_witness :
    ("Unclosed environment: alpha") ∈ validateErrors "\\begin{alpha}".data ∧
    ("Environment ended without begin: beta") ∈ validateErrors "\\end{beta}".data :=
  ⟨(C3_main "\\begin{alpha}".data "alpha").1 (by decide) (by decide),
   (C3_main "\\end{beta}".data "beta").2 (by decide) (by decide)⟩

/-! ## `pdf_info.py`: `_format_pdf_date` (lines 200–256)

Python strings are modelled as `List Char`; Python slicing `s[a:b]` is
`(s.drop a).take b-a`.  Every operation in the source body is total (string
slicing never raises in Python), so the `except` fallback of lines 254–256
is unreachable and has no counterpart here. -/

/-- Python `str.index(c)` restricted to `Option`: index of the first
occurrence, `none` when absent (the source guards `index` with `in`). -/
def pyIndexOf (c : Char) : List Char → Option Nat
  | [] => none
  | a :: rest => if a = c then some 0 else (pyIndexOf c rest).map (· + 1)

/-- The `D:` prefix strip of `pdf_info.py` lines 212–213. -/
def stripDatePrefix (s : List Char) : List Char :=
  if "D:".data.isPrefixOf s then s.drop 2 else s

/-- `_format_pdf_date` of `pdf_info.py` lines 200–256. -/
def _format_pdf_date (pdf_date : Option (List Char)) : Option (List Char) :=
  match pdf_date with
  | none => none
  | some s0 =>
    if s0 = [] then none
    else
      let s := stripDatePrefix s0
      if 14 ≤ s.length then
        let year := s.take 4
        let month := (s.drop 4).take 2
        let day := (s.drop 6).take 2
        let hour := (s.drop 8).take 2
        let minute := (s.drop 10).take 2
        let second := (s.drop 12).take 2
        let tz_part := s.drop 14
        let timezone_str : List Char :=
          if 14 < s.length then
            match tz_part with
            | c :: _ =>
              if c = '+' ∨ c = '-' then
                let tz_hours :=
                  if 2 < tz_part.length then (tz_part.drop 1).take 2 else "00".data
                let tz_mins :=
                  match pyIndexOf '\'' tz_part with
                  | some i =>
                    if i + 2 < tz_part.length then (tz_part.drop (i + 1)).take 2
                    else "00".data
                  | none => "00".data
                [c] ++ tz_hours ++ [':'] ++ tz_mins
              else "Z".data
            | [] => "Z".data
          else "Z".data
        some (year ++ ['-'] ++ month ++ ['-'] ++ day ++ ['T'] ++ hour ++ [':'] ++
          minute ++ [':'] ++ second ++ timezone_str)
      else if 8 ≤ s.length then
        some (s.take 4 ++ ['-'] ++ (s.drop 4).take 2 ++ ['-'] ++ (s.drop 6).take 2 ++
          "T00:00:00Z".data)
      else none

example :
    _format_pdf_date (some "D:20231201143000+05'30'".data) =
      some "2023-12-01T14:30:00+05:30".data := by decide

theorem exists_chars_two {l : List Char} (h : l.length = 2) :
    ∃ a b, l = [a, b] := by
  rcases l with _ | ⟨a, l⟩
  · simp at h
  rcases l with _ | ⟨b, l⟩
  · simp at h
  rcases l with _ | ⟨c, l⟩
  · exact ⟨a, b, rfl⟩
  · simp only [List.length_cons] at h
    omega

theorem exists_chars_four {l : List Char} (h : l.length = 4) :
    ∃ a b c d, l = [a, b, c, d] := by
  rcases l with _ | ⟨a, l⟩
  · simp at h
  have h3 : l.length = 3 := by simpa using h
  rcases l with _ | ⟨b, l⟩
  · simp at h3
  have h2 : l.length = 2 := by simpa using h3
  obtain ⟨c, d, rfl⟩ := exists_chars_two h2
  exact ⟨a, b, c, d, rfl⟩

theorem stripDatePrefix_cons (t : List Char) :
    stripDatePrefix ('D' :: ':' :: t) = t := by
  simp [stripDatePrefix, List.isPrefixOf]

/-- Claim C6: conversion of PDF date strings, in five parts.
1. The example `D:20231201143000+05'30'` converts to
   `2023-12-01T14:30:00+05:30`.
2. A string shorter than 8 characters after stripping the `D:` prefix
   yields an absent date.
3. A string of length at least 8 but below 14 after the prefix yields the
   date at midnight UTC (`T00:00:00Z`).
4. A full 14-character timestamp with no trailing offset converts to
   ISO-8601 with trailing `Z`.
5. A full timestamp with a trailing offset `±HH'MM'` converts to ISO-8601
   with `±HH:MM` (the hour digits must not themselves be an apostrophe,
   matching the source's first-apostrophe search).
The `except` fallback of lines 254–256 (return the raw string on parse
failure) is unreachable: every operation in the body is total. -/
theorem C6_main :
    (_format_pdf_date (some "D:20231201143000+05'30'".data) =
      some "2023-12-01T14:30:00+05:30".data) ∧
    (∀ s : List Char, (stripDatePrefix s).length < 8 →
      _format_pdf_date (some s) = none) ∧
    (∀ y mo dd rest : List Char, y.length = 4 → mo.length = 2 → dd.length = 2 →
      rest.length < 6 →
      _format_pdf_date (some ('D' :: ':' :: (y ++ (mo ++ (dd ++ rest))))) =
        some (y ++ ['-'] ++ mo ++ ['-'] ++ dd ++ "T00:00:00Z".data)) ∧
    (∀ y mo dd hh mi ss : List Char, y.length = 4 → mo.length = 2 →
      dd.length = 2 → hh.length = 2 → mi.length = 2 → ss.length = 2 →
      _format_pdf_date
          (some ('D' :: ':' :: (y ++ (mo ++ (dd ++ (hh ++ (mi ++ ss))))))) =
        some (y ++ ['-'] ++ mo ++ ['-'] ++ dd ++ ['T'] ++ hh ++ [':'] ++ mi ++
          [':'] ++ ss ++ ['Z'])) ∧
    (∀ y mo dd hh mi ss : List Char, ∀ sign t1 t2 m1 m2 : Char,
      y.length = 4 → mo.length = 2 → dd.length = 2 → hh.length = 2 →
      mi.length = 2 → ss.length = 2 → (sign = '+' ∨ sign = '-') →
      t1 ≠ '\'' → t2 ≠ '\'' →
      _format_pdf_date
          (some ('D' :: ':' :: (y ++ (mo ++ (dd ++ (hh ++ (mi ++ (ss ++
            (sign :: t1 :: t2 :: '\'' :: m1 :: m2 :: ['\'']))))))))) =
        some (y ++ ['-'] ++ mo ++ ['-'] ++ dd ++ ['T'] ++ hh ++ [':'] ++ mi ++
          [':'] ++ ss ++ (sign :: t1 :: t2 :: ':' :: m1 :: [m2]))) := by
  refine ⟨by decide, ?_, ?_, ?_, ?_⟩
  · intro s h
    simp only [_format_pdf_date]
    by_cases h0 : s = []
    · rw [if_pos h0]
    · rw [if_neg h0, if_neg (by omega), if_neg (by omega)]
  · intro y mo dd rest hy hmo hdd hrest
    obtain ⟨a, b, c, d, rfl⟩ := exists_chars_four hy
    obtain ⟨e, f, rfl⟩ := exists_chars_two hmo
    obtain ⟨g, k, rfl⟩ := exists_chars_two hdd
    simp only [_format_pdf_date, List.cons_append, List.nil_append]
    rw [if_neg (by simp), stripDatePrefix_cons]
    rw [if_neg (by simp only [List.length_cons]; omega)]
    rw [if_pos (by simp only [List.length_cons]; omega)]
    rfl
  · intro y mo dd hh mi ss hy hmo hdd hhh hmi hss
    obtain ⟨a, b, c, d, rfl⟩ := exists_chars_four hy
    obtain ⟨e, f, rfl⟩ := exists_chars_two hmo
    obtain ⟨g, k, rfl⟩ := exists_chars_two hdd
    obtain ⟨p, q, rfl⟩ := exists_chars_two hhh
    obtain ⟨u, v, rfl⟩ := exists_chars_two hmi
    obtain ⟨w, x, rfl⟩ := exists_chars_two hss
    rfl
  · intro y mo dd hh mi ss sign t1 t2 m1 m2 hy hmo hdd hhh hmi hss hsign hp hq
    obtain ⟨a, b, c, d, rfl⟩ := exists_chars_four hy
    obtain ⟨e, f, rfl⟩ := exists_chars_two hmo
    obtain ⟨g, k, rfl⟩ := exists_chars_two hdd
    obtain ⟨p, q, rfl⟩ := exists_chars_two hhh
    obtain ⟨u, v, rfl⟩ := exists_chars_two hmi
    obtain ⟨w, x, rfl⟩ := exists_chars_two hss
    rcases hsign with rfl | rfl <;>
      simp [_format_pdf_date, stripDatePrefix, List.isPrefixOf, pyIndexOf, hp, hq]

/-- Witness instantiating `C6_main` on concrete date strings: a short
string, a date-only string, a full timestamp without offset, and a full
timestamp with a negative offset. -/
theorem C6_witness :
    _format_pdf_date (some "D:2023".data) = none ∧
    _format_pdf_date (some "D:20231201".data) =
      some "2023-12-01T00:00:00Z".data ∧
    _format_pdf_date (some "D:20231201143000".data) =
      some "2023-12-01T14:30:00Z".data ∧
    _format_pdf_date (some "D:20231201143000-08'00'".data) =
      some "2023-12-01T14:30:00-08:00".data :=
  ⟨C6_main.2.1 "D:2023".data (by decide),
   C6_main.2.2.1 "2023".data "12".data "01".data [] (by decide) (by decide)
     (by decide) (by decide),
   C6_main.2.2.2.1 "2023".data "12".data "01".data "14".data "30".data
     "00".data (by decide) (by decide) (by decide) (by decide) (by decide)
     (by decide),
   C6_main.2.2.2.2 "2023".data "12".data "01".data "14".data "30".data
     "00".data '-' '0' '8' '0' '0' (by decide) (by decide) (by decide)
     (by decide) (by decide) (by decide) (Or.inr rfl) (by decide) (by decide)⟩

/-! ## `pathlib` name helpers

`PurePath.suffix` returns `name[i:]` for the last dot index `i` when
`0 < i < len(name) - 1`, else the empty string; `stem` is the name with the
suffix removed. -/

/-- Split a reversed name at its first dot: `some (afterRev, beforeRev)`
with `rev = afterRev ++ '.' :: beforeRev`, so in the unreversed name the
dot is the last one, `afterRev.reverse` follows it and `beforeRev.reverse`
precedes it. -/
def revSplitAtDot : List Char → Option (List Char × List Char)
  | [] => none
  | c :: rest =>
    if c = '.' then some ([], rest)
    else (revSplitAtDot rest).map (fun p => (c :: p.1, p.2))

/-- `PurePath.suffix` on a file name. -/
def pySuffixL (name : List Char) : List Char :=
  match revSplitAtDot name.reverse with
  | some (afterRev, beforeRev) =>
    if afterRev ≠ [] ∧ beforeRev ≠ [] then '.' :: afterRev.reverse else []
  | none => []

/-- `PurePath.stem` on a file name. -/
def pyStemL (name : List Char) : List Char :=
  name.take (name.length - (pySuffixL name).length)

/-- `PurePath.suffix` on a `String` name. -/
def pySuffixS (name : String) : String := (pySuffixL name.data).asString

/-- `PurePath.stem` on a `String` name. -/
def pyStemS (name : String) : String := (pyStemL name.data).asString

example : pySuffixS "paper.tex" = ".tex" := by decide
example : pySuffixS "paper.synctex.gz" = ".gz" := by decide
example : pySuffixS ".bashrc" = "" := by decide
example : pySuffixS "foo." = "" := by decide
example : pySuffixS "foo" = "" := by decide
example : pyStemS "paper.tex" = "paper" := by decide
example : pyStemS ".bashrc" = ".bashrc" := by decide

/-- Split a character list on `/`. -/
def splitSlashAux : List Char → List Char → List (List Char)
  | [], acc => [acc.reverse]
  | c :: rest, acc =>
    if c = '/' then acc.reverse :: splitSlashAux rest []
    else splitSlashAux rest (c :: acc)

/-- Path components of a path string. -/
def pathComps (s : String) : List String :=
  (splitSlashAux s.data []).map List.asString

/-- `PurePath.parent` rendered back to a string (`.` for a bare file
name).  Path normalisation quirks of `pathlib` (collapsing `./`) are not
reproduced; no claim depends on the rendered text of a path. -/
def pathParent (s : String) : String :=
  let cs := pathComps s
  if cs.length ≤ 1 then "." else String.intercalate "/" cs.dropLast

/-- The final path component. -/
def pathNameS (s : String) : String := (pathComps s).getLastD ""

/-- `Path dir / name` rendered as a string. -/
def pathJoin (d n : String) : String := d ++ "/" ++ n

example : pathParent "a/b/c.tex" = "a/b" := by decide
example : pathParent "c.tex" = "." := by decide
example : pathNameS "a/b/c.tex" = "c.tex" := by decide

/-! ## `compile.py`: the compilation driver

The external world of one `compile_latex` call is an oracle record: whether
the input exists, whether `mkdir` succeeds, how the spawned `pdflatex`
process ends, whether the predicted PDF exists afterwards, and the state of
the log file.  Raising a Python exception is modelled as `Except.error`;
note that `output_path.mkdir` (line 62) sits *outside* the
`try` block of lines 78–138, so its failure is an escaping exception. -/

/-- Result record of `compile.py` lines 16–24 (wall-clock timing field not
modelled). -/
structure CompilationResult where
  success : Bool
  output_path : Option String
  error_message : Option String
  log_content : Option String
deriving DecidableEq

/-- How the spawned compiler process ends: normal completion with an exit
code and stderr text, `subprocess.TimeoutExpired`, `PermissionError`, or
any other exception. -/
inductive RunOutcome where
  | completed (returncode : Int) (stderr : String)
  | timedOut
  | permissionError (msg : String)
  | otherError (msg : String)
deriving DecidableEq

/-- State of the compiler's log artifact after the process ends. -/
inductive LogState where
  | absent
  | readable (content : String)
  | unreadable
deriving DecidableEq

/-- Oracle for one `compile_latex` call. -/
structure CompileWorld where
  texExists : Bool
  mkdirOk : Bool
  mkdirErr : String
  outcome : RunOutcome
  pdfExists : Bool
  logState : LogState
deriving DecidableEq

/-- `compile_latex` of `compile.py` lines 27–138.  Python's
`if not tex_path` (line 45) fires for `None` as well, so both `None` and
the empty string raise the empty-path error.  A `timeout` of `None` is
rendered as Python would print it; the timed-out outcome cannot arise with
it in practice, which the model does not need to enforce. -/
def compile_latex (tex_path : Option String) (output_dir : Option String)
    (tmo : Option Nat) (w : CompileWorld) : Except String CompilationResult :=
  match tex_path with
  | none => .error "LaTeX file path cannot be empty"
  | some p =>
    if p = "" then .error "LaTeX file path cannot be empty"
    else if w.texExists = false then .error ("LaTeX file not found: " ++ p)
    else
      let output_path := match output_dir with
        | some d => if d = "" then pathParent p else d
        | none => pathParent p
      if w.mkdirOk = false then
        .error ("Unhandled OSError from mkdir: " ++ w.mkdirErr)
      else
        let pdf_path := pathJoin output_path (pyStemS (pathNameS p) ++ ".pdf")
        match w.outcome with
        | .completed rc stderr =>
          let log_content := match w.logState with
            | .absent => ""
            | .readable s => s
            | .unreadable => "Could not read log file"
          if rc = 0 ∧ w.pdfExists then
            .ok { success := true, output_path := some pdf_path,
                  error_message := none, log_content := some log_content }
          else
            .ok { success := false, output_path := none,
                  error_message := some
                    ("LaTeX compilation failed with return code " ++
                      toString rc ++
                      (if stderr ≠ "" then ": " ++ stderr else "")),
                  log_content := some log_content }
        | .timedOut =>
          .ok { success := false, output_path := none,
                error_message := some
                  ("LaTeX compilation timed out after " ++
                    (match tmo with | some t => toString t | none => "None") ++
                    " seconds"),
                log_content := none }
        | .permissionError m =>
          .ok { success := false, output_path := none,
                error_message := some
                  ("Permission denied during compilation: " ++ m),
                log_content := none }
        | .otherError m =>
          .ok { success := false, output_path := none,
                error_message := some
                  ("Unexpected error during compilation: " ++ m),
                log_content := none }

/-- Claim C2: when the spawned process completes, the returned result has
`success = true` exactly when the exit code is zero and the predicted PDF
exists (`compile.py` line 96). -/
theorem C2_main (p : String) (odir : Option String) (tmo : Option Nat)
    (w : CompileWorld) (rc : Int) (stderr : String) (r : CompilationResult)
    (houtcome : w.outcome = .completed rc stderr)
    (hok : compile_latex (some p) odir tmo w = .ok r) :
    r.success = true ↔ (rc = 0 ∧ w.pdfExists = true) := by
  obtain ⟨tex, mk, me, outc, pdf, ls⟩ := w
  simp only at houtcome
  subst houtcome
  simp only [compile_latex] at hok ⊢
  by_cases h1 : p = ""
  · rw [if_pos h1] at hok
    exact absurd hok (by simp)
  rw [if_neg h1] at hok
  by_cases h2 : tex = false
  · rw [if_pos h2] at hok
    exact absurd hok (by simp)
  rw [if_neg h2] at hok
  by_cases h3 : mk = false
  · rw [if_pos h3] at hok
    exact absurd hok (by simp)
  rw [if_neg h3] at hok
  by_cases h4 : rc = 0 ∧ pdf = true
  · rw [if_pos h4] at hok
    injection hok with hr
    subst hr
    simpa using h4
  · rw [if_neg h4] at hok
    injection hok with hr
    subst hr
    simpa using h4

/-- Witness instantiating `C2_main` on a run that exits 0 and produces
the PDF. -/
theorem C2_witness :
    ({ success := true, output_path := some "./doc.pdf",
       error_message := none, log_content := some "" } :
      CompilationResult).success = true ↔
      ((0 : Int) = 0 ∧ (true : Bool) = true) :=
  C2_main "doc.tex" none none
    ⟨true, true, "", .completed 0 "", true, .absent⟩ 0 "" _ rfl rfl

/-- Claim C5 fails on the source: with an existing input file but a failing
output-directory creation, `compile_latex` raises instead of returning a
failed result — `output_path.mkdir` (line 62) is outside the `try` block
that starts at line 78. -/
theorem C5_counterexample :
    compile_latex (some "doc.tex") (some "/forbidden") none
        ⟨true, false, "Permission denied", .completed 0 "", true, .absent⟩ =
      .error "Unhandled OSError from mkdir: Permission denied" := rfl

/-- Claim C5 amended: once the input path is validated *and* the output
directory has been created, every failure of the compile phase (nonzero
exit, missing PDF, timeout, permission error, unexpected error) is
returned as a `CompilationResult` with `success = false` and an error
message, and no exception escapes. -/
theorem C5_main (p : String) (odir : Option String) (tmo : Option Nat)
    (w : CompileWorld) (hp : p ≠ "") (hex : w.texExists = true)
    (hmk : w.mkdirOk = true) :
    ∃ r, compile_latex (some p) odir tmo w = .ok r ∧
      ((match w.outcome with
        | .completed rc _ => rc ≠ 0 ∨ w.pdfExists = false
        | _ => True) → r.success = false ∧ r.error_message ≠ none) := by
  obtain ⟨tex, mk, me, outc, pdf, ls⟩ := w
  simp only at hex hmk
  subst hex
  subst hmk
  rcases outc with ⟨rc, stderr⟩ | _ | m | m <;>
    simp only [compile_latex] <;>
    rw [if_neg hp, if_neg (by simp), if_neg (by simp)]
  · by_cases h4 : rc = 0 ∧ pdf = true
    · rw [if_pos h4]
      refine ⟨_, rfl, ?_⟩
      intro hfail
      rcases hfail with hrc | hpdf
      · exact absurd h4.1 hrc
      · rw [h4.2] at hpdf
        exact absurd hpdf (by simp)
    · rw [if_neg h4]
      refine ⟨_, rfl, ?_⟩
      intro _
      exact ⟨rfl, by simp⟩
  · exact ⟨_, rfl, fun _ => ⟨rfl, by simp⟩⟩
  · exact ⟨_, rfl, fun _ => ⟨rfl, by simp⟩⟩
  · exact ⟨_, rfl, fun _ => ⟨rfl, by simp⟩⟩

/-- Witness instantiating `C5_main` on a timed-out run. -/
theorem C5_witness :
    ∃ r, compile_latex (some "doc.tex") none (some 30)
        ⟨true, true, "", .timedOut, false, .absent⟩ = .ok r ∧
      ((match (⟨true, true, "", .timedOut, false, .absent⟩ :
          CompileWorld).outcome with
        | .completed rc _ => rc ≠ 0 ∨ false = false
        | _ => True) → r.success = false ∧ r.error_message ≠ none) :=
  C5_main "doc.tex" none (some 30)
    ⟨true, true, "", .timedOut, false, .absent⟩ (by decide) rfl rfl

/-! ## `cleanup.py`: the auxiliary-file cleaner

A path is a list of components; the filesystem is the set of existing file
paths and directory paths.  `unlink`, `copy2` and the backup `mkdir` can
fail, which the oracle record decides per path; the backup timestamp
(`datetime.now().strftime(...)`) is a parameter.  Python set semantics for
a caller-supplied extension list is modelled by `List.dedup`; iteration
order of a Python set is unspecified, so the list order stands in for it
(no claim depends on the order of processed candidates). -/

/-- A filesystem path as its components. -/
abbrev PathT := List String

/-- Existing files and directories. -/
structure FS where
  files : List PathT
  dirs : List PathT
deriving DecidableEq

/-- Oracles for one `clean_latex` call: whether `Path.unlink` succeeds on a
path, whether `shutil.copy2` from a source path succeeds, and whether the
backup `mkdir` succeeds (with the exception text used on failure). -/
structure CleanupWorld where
  unlinkOk : PathT → Bool
  copyOk : PathT → Bool
  backupMkdirOk : Bool
  backupErr : String

/-- Result record of `cleanup.py` lines 17–33 (wall-clock timing field not
modelled; paths kept structured as `PathT`). -/
structure CleanupResult where
  success : Bool
  error_message : Option String
  tex_file_path : Option PathT
  directory_path : Option PathT
  cleaned_files_count : Nat
  cleaned_files : List PathT
  would_clean_files : List PathT
  dry_run : Bool
  recursive : Bool
  backup_created : Bool
  backup_directory : Option PathT
deriving DecidableEq

/-- `DEFAULT_CLEANUP_EXTENSIONS` of `cleanup.py` lines 36–61. -/
def DEFAULT_CLEANUP_EXTENSIONS : List String :=
  [".aux", ".log", ".out", ".fls", ".fdb_latexmk", ".toc", ".lof", ".lot",
   ".bbl", ".blg", ".nav", ".snm", ".vrb", ".idx", ".ilg", ".ind", ".glo",
   ".gls", ".glg", ".synctex.gz", ".figlist", ".fpl", ".makefile", ".run.xml"]

/-- `PROTECTED_EXTENSIONS` of `cleanup.py` lines 64–84. -/
def PROTECTED_EXTENSIONS : List String :=
  [".tex", ".pdf", ".bib", ".sty", ".cls", ".dtx", ".ins", ".png", ".jpg",
   ".jpeg", ".gif", ".svg", ".eps", ".ps", ".txt", ".md", ".py", ".sh", ".bat"]

/-- The final path component (`Path.name`). -/
def lastName (p : PathT) : String := p.getLastD ""

/-- Remove every record of file `p` (`Path.unlink`). -/
def removeFile (p : PathT) (fs : FS) : FS :=
  { fs with files := fs.files.filter (fun q => q ≠ p) }

/-- Record file `p` as existing (`shutil.copy2` destination; overwriting an
existing file leaves the record unchanged). -/
def addFile (p : PathT) (fs : FS) : FS :=
  if p ∈ fs.files then fs else { fs with files := fs.files ++ [p] }

/-- Record directory `p` as existing (`mkdir` with `exist_ok=True`). -/
def addDir (p : PathT) (fs : FS) : FS :=
  if p ∈ fs.dirs then fs else { fs with dirs := fs.dirs ++ [p] }

/-- `_process_file_for_cleanup` of `cleanup.py` lines 255–283, threading
the filesystem and the result record.  In dry-run mode the path is only
recorded.  Otherwise `copy2` (when a backup directory exists) and `unlink`
run under `try/except Exception: pass`: a failure of either (including a
vanished source file) leaves the result untouched. -/
def _process_file_for_cleanup (w : CleanupWorld) (backup_dir : Option PathT)
    (file_path : PathT) (st : FS × CleanupResult) : FS × CleanupResult :=
  let fs := st.1
  let r := st.2
  if r.dry_run then
    (fs, { r with would_clean_files := r.would_clean_files ++ [file_path] })
  else if file_path ∈ fs.files then
    match backup_dir with
    | some bd =>
      if w.copyOk file_path then
        let fs1 := addFile (bd ++ [lastName file_path]) fs
        if w.unlinkOk file_path then
          (removeFile file_path fs1,
           { r with cleaned_files := r.cleaned_files ++ [file_path],
                    cleaned_files_count := r.cleaned_files_count + 1 })
        else (fs1, r)
      else (fs, r)
    | none =>
      if w.unlinkOk file_path then
        (removeFile file_path fs,
         { r with cleaned_files := r.cleaned_files ++ [file_path],
                  cleaned_files_count := r.cleaned_files_count + 1 })
      else (fs, r)
  else (fs, r)

/-- The probe path `tex_dir / (tex_stem + ext)` of `cleanup.py` line 218. -/
def texProbe (tex_file : PathT) (ext : String) : PathT :=
  tex_file.dropLast ++ [pyStemS (lastName tex_file) ++ ext]

/-- `_clean_tex_file_auxiliaries` of `cleanup.py` lines 206–220: for each
extension, process the same-stem sibling when it exists as a file. -/
def _clean_tex_file_auxiliaries (w : CleanupWorld) (tex_file : PathT)
    (exts : List String) (backup_dir : Option PathT)
    (st : FS × CleanupResult) : FS × CleanupResult :=
  exts.foldl (fun st ext =>
    if texProbe tex_file ext ∈ st.1.files then
      _process_file_for_cleanup w backup_dir (texProbe tex_file ext) st
    else st) st

/-- `_clean_single_file` of `cleanup.py` lines 223–231. -/
def _clean_single_file (w : CleanupWorld) (file_path : PathT)
    (exts : List String) (backup_dir : Option PathT)
    (st : FS × CleanupResult) : FS × CleanupResult :=
  if pySuffixS (lastName file_path) ∈ exts then
    _process_file_for_cleanup w backup_dir file_path st
  else st

/-- Location test of `directory.glob("*")` (direct children) and
`directory.glob("**/*")` (any depth below) restricted to files. -/
def underDir (recursive : Bool) (dir p : PathT) : Bool :=
  if recursive then listStartsWith dir p && decide (dir.length < p.length)
  else decide (p.dropLast = dir)

/-- `find_auxiliary_files` of `cleanup.py` lines 304–344: files under the
directory whose suffix is in the cleanup set and not protected.  The glob
enumeration order is unspecified in Python; the record order of `fs.files`
stands in for it. -/
def find_auxiliary_files (fs : FS) (dir : PathT) (exts : List String)
    (recursive : Bool) : List PathT :=
  fs.files.filter (fun p =>
    underDir recursive dir p &&
    decide (pySuffixS (lastName p) ∈ exts) &&
    decide (pySuffixS (lastName p) ∉ PROTECTED_EXTENSIONS))

/-- `_clean_directory_auxiliaries` of `cleanup.py` lines 234–252: the
candidate list is computed up front, then each candidate is processed. -/
def _clean_directory_auxiliaries (w : CleanupWorld) (dir : PathT)
    (exts : List String) (backup_dir : Option PathT) (recursive : Bool)
    (st : FS × CleanupResult) : FS × CleanupResult :=
  (find_auxiliary_files st.1 dir exts recursive).foldl
    (fun st p => _process_file_for_cleanup w backup_dir p st) st

/-- The backup directory path of `_create_backup_directory`
(`cleanup.py` lines 191–203): sibling of the target, named from the
target's stem (file) or name (directory) plus the timestamp. -/
def backupDirPath (fs : FS) (path : PathT) (ts : String) : PathT :=
  if path ∈ fs.files then
    path.dropLast ++ ["backup_" ++ pyStemS (lastName path) ++ "_" ++ ts]
  else
    path.dropLast ++ ["backup_" ++ lastName path ++ "_" ++ ts]

/-- The extension set actually used (`cleanup.py` lines 122–126): the
default table for `None`, else the caller's list with Python-set
deduplication. -/
def extsOf (extensions : Option (List String)) : List String :=
  match extensions with
  | none => DEFAULT_CLEANUP_EXTENSIONS
  | some l => l.dedup

/-- The freshly initialised result record (`cleanup.py` lines 129–142). -/
def initResult (dry_run recursive : Bool) : CleanupResult :=
  { success := false, error_message := none, tex_file_path := none,
    directory_path := none, cleaned_files_count := 0,
    cleaned_files := [], would_clean_files := [], dry_run := dry_run,
    recursive := recursive, backup_created := false,
    backup_directory := none }

/-- The backup phase (`cleanup.py` lines 144–153): on request and not in a
dry run, create the backup directory; on `mkdir` failure record the
warning and continue without a backup directory. -/
def cleanPhase1 (w : CleanupWorld) (ts : String) (fs0 : FS) (p : PathT)
    (r0 : CleanupResult) (dry_run create_backup : Bool) :
    FS × Option PathT × CleanupResult :=
  if create_backup ∧ ¬ dry_run then
    if w.backupMkdirOk then
      let bd := backupDirPath fs0 p ts
      (addDir bd fs0, some bd, { r0 with backup_directory := some bd })
    else
      (fs0, none,
       { r0 with error_message := some ("Warning: Backup creation failed: " ++
           w.backupErr ++ ". Continuing without backup.") })
  else (fs0, none, r0)

/-- The targeting dispatch (`cleanup.py` lines 155–176): a `.tex` file, a
single other file, or a directory. -/
def cleanDispatch (w : CleanupWorld) (exts : List String) (bd : Option PathT)
    (recursive : Bool) (p : PathT) (fs1 : FS) (r1 : CleanupResult) :
    FS × CleanupResult :=
  if p ∈ fs1.files then
    let r1f := { r1 with tex_file_path := some p,
                         directory_path := some p.dropLast }
    if pySuffixS (lastName p) = ".tex" then
      _clean_tex_file_auxiliaries w p exts bd (fs1, r1f)
    else
      _clean_single_file w p exts bd (fs1, r1f)
  else
    let r1d := { r1 with directory_path := some p }
    _clean_directory_auxiliaries w p exts bd recursive (fs1, r1d)

/-- The full post-validation body of `clean_latex` (`cleanup.py` lines
122–188). -/
def cleanBody (w : CleanupWorld) (ts : String) (fs0 : FS) (p : PathT)
    (extensions : Option (List String)) (dry_run recursive create_backup : Bool) :
    FS × CleanupResult :=
  let ph := cleanPhase1 w ts fs0 p (initResult dry_run recursive) dry_run create_backup
  let st2 := cleanDispatch w (extsOf extensions) ph.2.1 recursive p ph.1 ph.2.2
  (st2.1,
   { st2.2 with
       backup_created := ph.2.1.isSome && !st2.2.cleaned_files.isEmpty,
       success := true })

/-- `clean_latex` of `cleanup.py` lines 87–188.  Path validation raises
(`Except.error`); afterwards nothing in the body can raise in this model
(the per-file `try/except` is inside `_process_file_for_cleanup`), so the
body always returns a result with `success = true`, carrying at most the
backup warning in `error_message`. -/
def clean_latex (w : CleanupWorld) (ts : String) (fs0 : FS)
    (path : Option PathT) (extensions : Option (List String))
    (dry_run recursive create_backup : Bool) :
    Except String (FS × CleanupResult) :=
  match path with
  | none => .error "Path cannot be None"
  | some p =>
    if p = [] then .error "Path cannot be empty"
    else if p ∉ fs0.files ∧ p ∉ fs0.dirs then
      .error ("Path not found: " ++ String.intercalate "/" p)
    else
      .ok (cleanBody w ts fs0 p extensions dry_run recursive create_backup)

/-- The successful payload of a cleanup run, when it did not raise. -/
def okPart (e : Except String (FS × CleanupResult)) :
    Option (FS × CleanupResult) :=
  match e with
  | .ok x => some x
  | .error _ => none

/-- The exception text of a cleanup run, when it raised. -/
def errPart (e : Except String (FS × CleanupResult)) : Option String :=
  match e with
  | .error m => some m
  | .ok _ => none

/-- An all-permissive oracle: every `unlink`, `copy2` and `mkdir`
succeeds. -/
def allOkWorld : CleanupWorld :=
  { unlinkOk := fun _ => true, copyOk := fun _ => true,
    backupMkdirOk := true, backupErr := "" }

example :
    (okPart (clean_latex allOkWorld "ts"
        ⟨[["d", "paper.tex"], ["d", "paper.aux"], ["d", "paper.log"],
          ["d", "image.png"]], [["d"]]⟩
        (some ["d"]) none false false false)).map
      (fun x => (x.1.files, x.2.cleaned_files, x.2.cleaned_files_count)) =
      some ([["d", "paper.tex"], ["d", "image.png"]],
        [["d", "paper.aux"], ["d", "paper.log"]], 2) := by decide

/-- Whether a non-dry-run processing of `q` actually deletes it: with a
backup directory both the copy and the unlink must succeed, without one
only the unlink. -/
def opRemoves (w : CleanupWorld) (backup_dir : Option PathT) (q : PathT) : Bool :=
  match backup_dir with
  | some _ => w.copyOk q && w.unlinkOk q
  | none => w.unlinkOk q

theorem mem_addFile {x c : PathT} {fs : FS} :
    x ∈ (addFile c fs).files ↔ x ∈ fs.files ∨ x = c := by
  unfold addFile
  split_ifs with h
  · constructor
    · exact Or.inl
    · rintro (hx | rfl)
      · exact hx
      · exact h
  · simp

theorem mem_removeFile {x p : PathT} {fs : FS} :
    x ∈ (removeFile p fs).files ↔ x ∈ fs.files ∧ x ≠ p := by
  unfold removeFile
  simp

theorem P_files_sub (w : CleanupWorld) (bd : Option PathT) (q : PathT)
    (st : FS × CleanupResult) (x : PathT)
    (hx : x ∈ (_process_file_for_cleanup w bd q st).1.files) :
    x ∈ st.1.files ∨ ∃ b, bd = some b ∧ x = b ++ [lastName q] := by
  obtain ⟨fs, r⟩ := st
  rcases bd with _ | b
  · unfold _process_file_for_cleanup at hx
    simp only at hx
    split_ifs at hx with h1 h2 h3
    · exact Or.inl hx
    · rw [mem_removeFile] at hx
      exact Or.inl hx.1
    · exact Or.inl hx
    · exact Or.inl hx
  · unfold _process_file_for_cleanup at hx
    simp only at hx
    split_ifs at hx with h1 h2 h3 h4
    · exact Or.inl hx
    · rw [mem_removeFile, mem_addFile] at hx
      rcases hx.1 with hx1 | hx1
      · exact Or.inl hx1
      · exact Or.inr ⟨b, rfl, hx1⟩
    · rw [mem_addFile] at hx
      rcases hx with hx1 | hx1
      · exact Or.inl hx1
      · exact Or.inr ⟨b, rfl, hx1⟩
    · exact Or.inl hx
    · exact Or.inl hx

theorem P_cleaned_sub (w : CleanupWorld) (bd : Option PathT) (q : PathT)
    (st : FS × CleanupResult) (x : PathT)
    (hx : x ∈ (_process_file_for_cleanup w bd q st).2.cleaned_files) :
    x ∈ st.2.cleaned_files ∨
      (x = q ∧ st.2.dry_run = false ∧ q ∈ st.1.files ∧
        opRemoves w bd q = true) := by
  obtain ⟨fs, r⟩ := st
  rcases bd with _ | b
  · unfold _process_file_for_cleanup at hx
    simp only at hx ⊢
    split_ifs at hx with h1 h2 h3
    · exact Or.inl hx
    · simp only [List.mem_append, List.mem_singleton] at hx
      rcases hx with hx1 | rfl
      · exact Or.inl hx1
      · exact Or.inr ⟨rfl, by simpa using h1, h2, by simpa [opRemoves] using h3⟩
    · exact Or.inl hx
    · exact Or.inl hx
  · unfold _process_file_for_cleanup at hx
    simp only at hx ⊢
    split_ifs at hx with h1 h2 h3 h4
    · exact Or.inl hx
    · simp only [List.mem_append, List.mem_singleton] at hx
      rcases hx with hx1 | rfl
      · exact Or.inl hx1
      · exact Or.inr ⟨rfl, by simpa using h1, h2,
          by simp [opRemoves, h3, h4]⟩
    · exact Or.inl hx
    · exact Or.inl hx
    · exact Or.inl hx

theorem P_would_sub (w : CleanupWorld) (bd : Option PathT) (q : PathT)
    (st : FS × CleanupResult) (x : PathT)
    (hx : x ∈ (_process_file_for_cleanup w bd q st).2.would_clean_files) :
    x ∈ st.2.would_clean_files ∨ (x = q ∧ st.2.dry_run = true) := by
  obtain ⟨fs, r⟩ := st
  rcases bd with _ | b
  · unfold _process_file_for_cleanup at hx
    simp only at hx ⊢
    split_ifs at hx with h1 h2 h3
    · simp only [List.mem_append, List.mem_singleton] at hx
      rcases hx with hx1 | rfl
      · exact Or.inl hx1
      · exact Or.inr ⟨rfl, h1⟩
    · exact Or.inl hx
    · exact Or.inl hx
    · exact Or.inl hx
  · unfold _process_file_for_cleanup at hx
    simp only at hx ⊢
    split_ifs at hx with h1 h2 h3 h4
    · simp only [List.mem_append, List.mem_singleton] at hx
      rcases hx with hx1 | rfl
      · exact Or.inl hx1
      · exact Or.inr ⟨rfl, h1⟩
    · exact Or.inl hx
    · exact Or.inl hx
    · exact Or.inl hx
    · exact Or.inl hx

theorem P_removes (w : CleanupWorld) (bd : Option PathT) (q : PathT)
    (st : FS × CleanupResult) (h1 : st.2.dry_run = false)
    (h2 : q ∈ st.1.files) (h3 : opRemoves w bd q = true) :
    q ∉ (_process_file_for_cleanup w bd q st).1.files := by
  obtain ⟨fs, r⟩ := st
  simp only at h1 h2
  rcases bd with _ | b
  · simp only [opRemoves] at h3
    unfold _process_file_for_cleanup
    simp only
    rw [if_neg (by simp [h1]), if_pos h2, if_pos h3]
    simp [mem_removeFile]
  · simp only [opRemoves, Bool.and_eq_true] at h3
    unfold _process_file_for_cleanup
    simp only
    rw [if_neg (by simp [h1]), if_pos h2, if_pos h3.1, if_pos h3.2]
    simp [mem_removeFile]

theorem P_preserves_mem (w : CleanupWorld) (bd : Option PathT) (q : PathT)
    (st : FS × CleanupResult) (x : PathT) (hx : x ∈ st.1.files) (hne : x ≠ q) :
    x ∈ (_process_file_for_cleanup w bd q st).1.files := by
  obtain ⟨fs, r⟩ := st
  simp only at hx
  rcases bd with _ | b
  · unfold _process_file_for_cleanup
    simp only
    split_ifs
    · exact hx
    · rw [mem_removeFile]
      exact ⟨hx, hne⟩
    · exact hx
    · exact hx
  · unfold _process_file_for_cleanup
    simp only
    split_ifs
    · exact hx
    · rw [mem_removeFile, mem_addFile]
      exact ⟨Or.inl hx, hne⟩
    · rw [mem_addFile]
      exact Or.inl hx
    · exact hx
    · exact hx

theorem P_dry_run_eq (w : CleanupWorld) (bd : Option PathT) (q : PathT)
    (st : FS × CleanupResult) :
    (_process_file_for_cleanup w bd q st).2.dry_run = st.2.dry_run := by
  obtain ⟨fs, r⟩ := st
  rcases bd with _ | b <;>
    (unfold _process_file_for_cleanup
     simp only
     split_ifs) <;> rfl

theorem P_count_inv (w : CleanupWorld) (bd : Option PathT) (q : PathT)
    (st : FS × CleanupResult)
    (h : st.2.cleaned_files_count = st.2.cleaned_files.length) :
    (_process_file_for_cleanup w bd q st).2.cleaned_files_count =
      (_process_file_for_cleanup w bd q st).2.cleaned_files.length := by
  obtain ⟨fs, r⟩ := st
  simp only at h
  rcases bd with _ | b <;>
    (unfold _process_file_for_cleanup
     simp only
     split_ifs) <;> simp [h]

theorem P_cleaned_dry (w : CleanupWorld) (bd : Option PathT) (q : PathT)
    (st : FS × CleanupResult) (h : st.2.dry_run = true) :
    (_process_file_for_cleanup w bd q st).2.cleaned_files =
      st.2.cleaned_files := by
  obtain ⟨fs, r⟩ := st
  simp only at h
  unfold _process_file_for_cleanup
  simp only
  rw [if_pos h]

/-- A path that a backup copy of this run can occupy: directly inside the
backup directory. -/
def isCopyPath (bd : Option PathT) (x : PathT) : Prop :=
  ∃ b, bd = some b ∧ x.dropLast = b

theorem dropLast_append_one (l : PathT) (a : String) :
    (l ++ [a]).dropLast = l := by
  simp

theorem P_files_sub' (w : CleanupWorld) (bd : Option PathT) (q : PathT)
    (st : FS × CleanupResult) (x : PathT)
    (hx : x ∈ (_process_file_for_cleanup w bd q st).1.files) :
    x ∈ st.1.files ∨ isCopyPath bd x := by
  rcases P_files_sub w bd q st x hx with h | ⟨b, hb, rfl⟩
  · exact Or.inl h
  · exact Or.inr ⟨b, hb, dropLast_append_one b (lastName q)⟩

theorem opRemoves_unlink {w : CleanupWorld} {bd : Option PathT} {q : PathT}
    (h : opRemoves w bd q = true) : w.unlinkOk q = true := by
  rcases bd with _ | b
  · exact h
  · simp only [opRemoves, Bool.and_eq_true] at h
    exact h.2

/-- Fold an invariant over a candidate list, with the step hypothesis
available only for list members. -/
theorem foldl_inv {α : Type} (step : FS × CleanupResult → α → FS × CleanupResult)
    (Inv : FS × CleanupResult → Prop) :
    ∀ (L : List α) (st : FS × CleanupResult),
      (∀ s x, x ∈ L → Inv s → Inv (step s x)) → Inv st →
      Inv (L.foldl step st)
  | [], st => fun _ h => h
  | a :: L, st => fun hstep h =>
      foldl_inv step Inv L (step st a)
        (fun s x hx hs => hstep s x (List.mem_cons_of_mem a hx) hs)
        (hstep st a (List.mem_cons_self a L) h)

/-- The step function of `_clean_directory_auxiliaries`. -/
def dirStep (w : CleanupWorld) (bd : Option PathT) :
    FS × CleanupResult → PathT → FS × CleanupResult :=
  fun st p => _process_file_for_cleanup w bd p st

/-- The step function of `_clean_tex_file_auxiliaries`. -/
def texStep (w : CleanupWorld) (tex_file : PathT) (bd : Option PathT) :
    FS × CleanupResult → String → FS × CleanupResult :=
  fun st ext =>
    if texProbe tex_file ext ∈ st.1.files then
      _process_file_for_cleanup w bd (texProbe tex_file ext) st
    else st

theorem clean_dir_eq_fold (w : CleanupWorld) (dir : PathT) (exts : List String)
    (bd : Option PathT) (recursive : Bool) (st : FS × CleanupResult) :
    _clean_directory_auxiliaries w dir exts bd recursive st =
      (find_auxiliary_files st.1 dir exts recursive).foldl (dirStep w bd) st := rfl

theorem clean_tex_eq_fold (w : CleanupWorld) (tex_file : PathT)
    (exts : List String) (bd : Option PathT) (st : FS × CleanupResult) :
    _clean_tex_file_auxiliaries w tex_file exts bd st =
      exts.foldl (texStep w tex_file bd) st := rfl

theorem texStep_cases (w : CleanupWorld) (tex_file : PathT) (bd : Option PathT)
    (st : FS × CleanupResult) (ext : String) :
    texStep w tex_file bd st ext =
        _process_file_for_cleanup w bd (texProbe tex_file ext) st ∨
      texStep w tex_file bd st ext = st := by
  unfold texStep
  split_ifs
  · exact Or.inl rfl
  · exact Or.inr rfl

/-- Invariant: the running count equals the length of the cleaned list. -/
theorem fold_count_inv_dir (w : CleanupWorld) (bd : Option PathT)
    (L : List PathT) (st : FS × CleanupResult)
    (h : st.2.cleaned_files_count = st.2.cleaned_files.length) :
    (L.foldl (dirStep w bd) st).2.cleaned_files_count =
      (L.foldl (dirStep w bd) st).2.cleaned_files.length :=
  foldl_inv (dirStep w bd)
    (fun s => s.2.cleaned_files_count = s.2.cleaned_files.length) L st
    (fun s p _ hs => P_count_inv w bd p s hs) h

theorem fold_count_inv_tex (w : CleanupWorld) (tex_file : PathT)
    (bd : Option PathT) (exts : List String) (st : FS × CleanupResult)
    (h : st.2.cleaned_files_count = st.2.cleaned_files.length) :
    (exts.foldl (texStep w tex_file bd) st).2.cleaned_files_count =
      (exts.foldl (texStep w tex_file bd) st).2.cleaned_files.length :=
  foldl_inv (texStep w tex_file bd)
    (fun s => s.2.cleaned_files_count = s.2.cleaned_files.length) exts st
    (fun s e _ hs => by
      rcases texStep_cases w tex_file bd s e with he | he
      · rw [he]
        exact P_count_inv w bd (texProbe tex_file e) s hs
      · rw [he]
        exact hs) h

/-- Invariant: the dry-run flag of the threaded result never changes. -/
theorem fold_dry_inv_dir (w : CleanupWorld) (bd : Option PathT)
    (L : List PathT) (st : FS × CleanupResult) :
    (L.foldl (dirStep w bd) st).2.dry_run = st.2.dry_run :=
  foldl_inv (dirStep w bd) (fun s => s.2.dry_run = st.2.dry_run) L st
    (fun s p _ hs => by
      have hs' : s.2.dry_run = st.2.dry_run := hs
      show (_process_file_for_cleanup w bd p s).2.dry_run = st.2.dry_run
      rw [P_dry_run_eq]
      exact hs') rfl

theorem fold_dry_inv_tex (w : CleanupWorld) (tex_file : PathT)
    (bd : Option PathT) (exts : List String) (st : FS × CleanupResult) :
    (exts.foldl (texStep w tex_file bd) st).2.dry_run = st.2.dry_run :=
  foldl_inv (texStep w tex_file bd) (fun s => s.2.dry_run = st.2.dry_run) exts st
    (fun s e _ hs => by
      have hs' : s.2.dry_run = st.2.dry_run := hs
      show (texStep w tex_file bd s e).2.dry_run = st.2.dry_run
      rcases texStep_cases w tex_file bd s e with he | he <;> rw [he]
      · rw [P_dry_run_eq]
        exact hs'
      · exact hs') rfl

/-- Invariant: in dry-run mode the cleaned list never grows. -/
theorem fold_dry_cleaned_dir (w : CleanupWorld) (bd : Option PathT)
    (L : List PathT) (st : FS × CleanupResult) (hd : st.2.dry_run = true) :
    (L.foldl (dirStep w bd) st).2.cleaned_files = st.2.cleaned_files :=
  foldl_inv (dirStep w bd)
    (fun s => s.2.dry_run = true ∧ s.2.cleaned_files = st.2.cleaned_files) L st
    (fun s p _ hs => by
      have hs' : s.2.dry_run = true ∧ s.2.cleaned_files = st.2.cleaned_files := hs
      show (_process_file_for_cleanup w bd p s).2.dry_run = true ∧
        (_process_file_for_cleanup w bd p s).2.cleaned_files = st.2.cleaned_files
      refine ⟨?_, ?_⟩
      · rw [P_dry_run_eq]
        exact hs'.1
      · rw [P_cleaned_dry w bd p s hs'.1]
        exact hs'.2) ⟨hd, rfl⟩ |>.2

theorem fold_dry_cleaned_tex (w : CleanupWorld) (tex_file : PathT)
    (bd : Option PathT) (exts : List String) (st : FS × CleanupResult)
    (hd : st.2.dry_run = true) :
    (exts.foldl (texStep w tex_file bd) st).2.cleaned_files =
      st.2.cleaned_files :=
  foldl_inv (texStep w tex_file bd)
    (fun s => s.2.dry_run = true ∧ s.2.cleaned_files = st.2.cleaned_files)
    exts st
    (fun s e _ hs => by
      have hs' : s.2.dry_run = true ∧ s.2.cleaned_files = st.2.cleaned_files := hs
      show (texStep w tex_file bd s e).2.dry_run = true ∧
        (texStep w tex_file bd s e).2.cleaned_files = st.2.cleaned_files
      rcases texStep_cases w tex_file bd s e with he | he <;> rw [he]
      · exact ⟨by rw [P_dry_run_eq]; exact hs'.1,
          by rw [P_cleaned_dry w bd _ s hs'.1]; exact hs'.2⟩
      · exact hs') ⟨hd, rfl⟩ |>.2

/-- Invariant: every cleaned path passed its `unlink`. -/
theorem fold_unlink_inv_dir (w : CleanupWorld) (bd : Option PathT)
    (L : List PathT) (st : FS × CleanupResult)
    (h : ∀ q ∈ st.2.cleaned_files, w.unlinkOk q = true) :
    ∀ q ∈ (L.foldl (dirStep w bd) st).2.cleaned_files, w.unlinkOk q = true :=
  foldl_inv (dirStep w bd)
    (fun s => ∀ q ∈ s.2.cleaned_files, w.unlinkOk q = true) L st
    (fun s p _ hs => by
      have hs' : ∀ q ∈ s.2.cleaned_files, w.unlinkOk q = true := hs
      show ∀ q ∈ (_process_file_for_cleanup w bd p s).2.cleaned_files,
        w.unlinkOk q = true
      intro q hq
      rcases P_cleaned_sub w bd p s q hq with h1 | ⟨rfl, _, _, hop⟩
      · exact hs' q h1
      · exact opRemoves_unlink hop) h

theorem fold_unlink_inv_tex (w : CleanupWorld) (tex_file : PathT)
    (bd : Option PathT) (exts : List String) (st : FS × CleanupResult)
    (h : ∀ q ∈ st.2.cleaned_files, w.unlinkOk q = true) :
    ∀ q ∈ (exts.foldl (texStep w tex_file bd) st).2.cleaned_files,
      w.unlinkOk q = true :=
  foldl_inv (texStep w tex_file bd)
    (fun s => ∀ q ∈ s.2.cleaned_files, w.unlinkOk q = true) exts st
    (fun s e _ hs => by
      have hs' : ∀ q ∈ s.2.cleaned_files, w.unlinkOk q = true := hs
      show ∀ q ∈ (texStep w tex_file bd s e).2.cleaned_files,
        w.unlinkOk q = true
      intro q hq
      rcases texStep_cases w tex_file bd s e with he | he
      · rw [he] at hq
        rcases P_cleaned_sub w bd _ s q hq with h1 | ⟨rfl, _, _, hop⟩
        · exact hs' q h1
        · exact opRemoves_unlink hop
      · rw [he] at hq
        exact hs' q hq) h

/-- Invariant: files present after the fold were present before or are
backup copies. -/
theorem fold_files_upper_dir (w : CleanupWorld) (bd : Option PathT)
    (L : List PathT) (st : FS × CleanupResult) :
    ∀ x ∈ (L.foldl (dirStep w bd) st).1.files,
      x ∈ st.1.files ∨ isCopyPath bd x :=
  foldl_inv (dirStep w bd)
    (fun s => ∀ x ∈ s.1.files, x ∈ st.1.files ∨ isCopyPath bd x) L st
    (fun s p _ hs => by
      have hs' : ∀ x ∈ s.1.files, x ∈ st.1.files ∨ isCopyPath bd x := hs
      show ∀ x ∈ (_process_file_for_cleanup w bd p s).1.files,
        x ∈ st.1.files ∨ isCopyPath bd x
      intro x hx
      rcases P_files_sub' w bd p s x hx with h1 | h1
      · exact hs' x h1
      · exact Or.inr h1) (fun x hx => Or.inl hx)

theorem fold_files_upper_tex (w : CleanupWorld) (tex_file : PathT)
    (bd : Option PathT) (exts : List String) (st : FS × CleanupResult) :
    ∀ x ∈ (exts.foldl (texStep w tex_file bd) st).1.files,
      x ∈ st.1.files ∨ isCopyPath bd x :=
  foldl_inv (texStep w tex_file bd)
    (fun s => ∀ x ∈ s.1.files, x ∈ st.1.files ∨ isCopyPath bd x) exts st
    (fun s e _ hs => by
      have hs' : ∀ x ∈ s.1.files, x ∈ st.1.files ∨ isCopyPath bd x := hs
      show ∀ x ∈ (texStep w tex_file bd s e).1.files,
        x ∈ st.1.files ∨ isCopyPath bd x
      intro x hx
      rcases texStep_cases w tex_file bd s e with he | he
      · rw [he] at hx
        rcases P_files_sub' w bd _ s x hx with h1 | h1
        · exact hs' x h1
        · exact Or.inr h1
      · rw [he] at hx
        exact hs' x hx) (fun x hx => Or.inl hx)

/-- A path absent from the filesystem and not a backup copy stays absent
through a directory-mode fold. -/
theorem dirFold_keeps_out (w : CleanupWorld) (bd : Option PathT)
    (L : List PathT) (st : FS × CleanupResult) (q : PathT)
    (hq : q ∉ st.1.files) (hnc : ¬ isCopyPath bd q) :
    q ∉ (L.foldl (dirStep w bd) st).1.files :=
  foldl_inv (dirStep w bd) (fun s => q ∉ s.1.files) L st
    (fun s p _ hs => by
      have hs' : q ∉ s.1.files := hs
      show q ∉ (_process_file_for_cleanup w bd p s).1.files
      intro hq2
      rcases P_files_sub' w bd p s q hq2 with h1 | h1
      · exact hs' h1
      · exact hnc h1) hq

theorem texFold_keeps_out (w : CleanupWorld) (tex_file : PathT)
    (bd : Option PathT) (exts : List String) (st : FS × CleanupResult)
    (q : PathT) (hq : q ∉ st.1.files) (hnc : ¬ isCopyPath bd q) :
    q ∉ (exts.foldl (texStep w tex_file bd) st).1.files :=
  foldl_inv (texStep w tex_file bd) (fun s => q ∉ s.1.files) exts st
    (fun s e _ hs => by
      have hs' : q ∉ s.1.files := hs
      show q ∉ (texStep w tex_file bd s e).1.files
      intro hq2
      rcases texStep_cases w tex_file bd s e with he | he
      · rw [he] at hq2
        rcases P_files_sub' w bd _ s q hq2 with h1 | h1
        · exact hs' h1
        · exact hnc h1
      · rw [he] at hq2
        exact hs' hq2) hq

/-- A present candidate that the oracles would delete is gone after the
directory-mode fold. -/
theorem dirFold_removes (w : CleanupWorld) (bd : Option PathT) :
    ∀ (L : List PathT) (st : FS × CleanupResult) (q : PathT),
      st.2.dry_run = false → q ∈ st.1.files → q ∈ L →
      opRemoves w bd q = true → ¬ isCopyPath bd q →
      q ∉ (L.foldl (dirStep w bd) st).1.files
  | [], st, q => by
      intro _ _ hmem _ _
      exact absurd hmem (by simp)
  | a :: L, st, q => by
      intro hdry hq hmem hop hnc
      by_cases hqa : a = q
      · subst hqa
        have hrem : a ∉ (dirStep w bd st a).1.files :=
          P_removes w bd a st hdry hq hop
        exact dirFold_keeps_out w bd L (dirStep w bd st a) a hrem hnc
      · have hq1 : q ∈ (dirStep w bd st a).1.files :=
          P_preserves_mem w bd a st q hq (fun h => hqa h.symm)
        have hdry1 : (dirStep w bd st a).2.dry_run = false := by
          show (_process_file_for_cleanup w bd a st).2.dry_run = false
          rw [P_dry_run_eq]
          exact hdry
        have hmem1 : q ∈ L := by
          rcases List.mem_cons.mp hmem with h | h
          · exact absurd h.symm hqa
          · exact h
        exact dirFold_removes w bd L (dirStep w bd st a) q hdry1 hq1 hmem1 hop hnc

/-- A present probe whose extension is in the list and that the oracles
would delete is gone after the tex-mode fold. -/
theorem texFold_removes (w : CleanupWorld) (tex_file : PathT)
    (bd : Option PathT) :
    ∀ (exts : List String) (st : FS × CleanupResult) (ext0 : String),
      st.2.dry_run = false → texProbe tex_file ext0 ∈ st.1.files →
      ext0 ∈ exts → opRemoves w bd (texProbe tex_file ext0) = true →
      ¬ isCopyPath bd (texProbe tex_file ext0) →
      texProbe tex_file ext0 ∉
        (exts.foldl (texStep w tex_file bd) st).1.files
  | [], st, ext0 => by
      intro _ _ hmem _ _
      exact absurd hmem (by simp)
  | e :: exts, st, ext0 => by
      intro hdry hq hmem hop hnc
      by_cases hpe : texProbe tex_file e = texProbe tex_file ext0
      · have hstep : texStep w tex_file bd st e =
            _process_file_for_cleanup w bd (texProbe tex_file ext0) st := by
          unfold texStep
          rw [hpe, if_pos hq]
        have hrem : texProbe tex_file ext0 ∉ (texStep w tex_file bd st e).1.files := by
          rw [hstep]
          exact P_removes w bd _ st hdry hq hop
        exact texFold_keeps_out w tex_file bd exts (texStep w tex_file bd st e)
          _ hrem hnc
      · have hq1 : texProbe tex_file ext0 ∈ (texStep w tex_file bd st e).1.files := by
          rcases texStep_cases w tex_file bd st e with he | he <;> rw [he]
          · exact P_preserves_mem w bd _ st _ hq (fun h => hpe h.symm)
          · exact hq
        have hdry1 : (texStep w tex_file bd st e).2.dry_run = false := by
          rcases texStep_cases w tex_file bd st e with he | he <;> rw [he]
          · rw [P_dry_run_eq]
            exact hdry
          · exact hdry
        have hmem1 : ext0 ∈ exts := by
          rcases List.mem_cons.mp hmem with h | h
          · exact absurd (by rw [h]) hpe
          · exact h
        exact texFold_removes w tex_file bd exts (texStep w tex_file bd st e)
          ext0 hdry1 hq1 hmem1 hop hnc

/-- If every processed candidate is blocked (already absent and not a
backup copy whenever the oracles would delete it), the fold cleans
nothing. -/
theorem dirFold_cleaned_nil (w : CleanupWorld) (bd : Option PathT)
    (L : List PathT) (st : FS × CleanupResult)
    (hnil : st.2.cleaned_files = [])
    (hblock : ∀ p ∈ L, st.2.dry_run = false → opRemoves w bd p = true →
      ¬ isCopyPath bd p ∧ p ∉ st.1.files) :
    (L.foldl (dirStep w bd) st).2.cleaned_files = [] :=
  (foldl_inv (dirStep w bd)
    (fun s => s.2.cleaned_files = [] ∧ s.2.dry_run = st.2.dry_run ∧
      (∀ x ∈ s.1.files, x ∈ st.1.files ∨ isCopyPath bd x)) L st
    (fun s p hp hs => by
      have hs' : s.2.cleaned_files = [] ∧ s.2.dry_run = st.2.dry_run ∧
          (∀ x ∈ s.1.files, x ∈ st.1.files ∨ isCopyPath bd x) := hs
      show (_process_file_for_cleanup w bd p s).2.cleaned_files = [] ∧
        (_process_file_for_cleanup w bd p s).2.dry_run = st.2.dry_run ∧
        (∀ x ∈ (_process_file_for_cleanup w bd p s).1.files,
          x ∈ st.1.files ∨ isCopyPath bd x)
      refine ⟨?_, ?_, ?_⟩
      · rcases hcl : (_process_file_for_cleanup w bd p s).2.cleaned_files with
          _ | ⟨x, xs⟩
        · rfl
        · exfalso
          have hx : x ∈ (_process_file_for_cleanup w bd p s).2.cleaned_files := by
            rw [hcl]
            exact List.mem_cons_self x xs
          rcases P_cleaned_sub w bd p s x hx with h1 | ⟨rfl, hdry, hin, hop⟩
          · rw [hs'.1] at h1
            exact absurd h1 (by simp)
          · have hdry0 : st.2.dry_run = false := by rw [← hs'.2.1]; exact hdry
            have hb := hblock x hp hdry0 hop
            rcases hs'.2.2 x hin with h2 | h2
            · exact hb.2 h2
            · exact hb.1 h2
      · rw [P_dry_run_eq]
        exact hs'.2.1
      · intro x hx
        rcases P_files_sub' w bd p s x hx with h1 | h1
        · exact hs'.2.2 x h1
        · exact Or.inr h1)
    ⟨hnil, rfl, fun x hx => Or.inl hx⟩).1

theorem texFold_cleaned_nil (w : CleanupWorld) (tex_file : PathT)
    (bd : Option PathT) (exts : List String) (st : FS × CleanupResult)
    (hnil : st.2.cleaned_files = [])
    (hblock : ∀ e ∈ exts, st.2.dry_run = false →
      opRemoves w bd (texProbe tex_file e) = true →
      ¬ isCopyPath bd (texProbe tex_file e) ∧
        texProbe tex_file e ∉ st.1.files) :
    (exts.foldl (texStep w tex_file bd) st).2.cleaned_files = [] :=
  (foldl_inv (texStep w tex_file bd)
    (fun s => s.2.cleaned_files = [] ∧ s.2.dry_run = st.2.dry_run ∧
      (∀ x ∈ s.1.files, x ∈ st.1.files ∨ isCopyPath bd x)) exts st
    (fun s e he hs => by
      have hs' : s.2.cleaned_files = [] ∧ s.2.dry_run = st.2.dry_run ∧
          (∀ x ∈ s.1.files, x ∈ st.1.files ∨ isCopyPath bd x) := hs
      show (texStep w tex_file bd s e).2.cleaned_files = [] ∧
        (texStep w tex_file bd s e).2.dry_run = st.2.dry_run ∧
        (∀ x ∈ (texStep w tex_file bd s e).1.files,
          x ∈ st.1.files ∨ isCopyPath bd x)
      rcases texStep_cases w tex_file bd s e with hte | hte
      · rw [hte]
        refine ⟨?_, ?_, ?_⟩
        · rcases hcl : (_process_file_for_cleanup w bd (texProbe tex_file e) s).2.cleaned_files with
            _ | ⟨x, xs⟩
          · rfl
          · exfalso
            have hx : x ∈ (_process_file_for_cleanup w bd (texProbe tex_file e) s).2.cleaned_files := by
              rw [hcl]
              exact List.mem_cons_self x xs
            rcases P_cleaned_sub w bd _ s x hx with h1 | ⟨rfl, hdry, hin, hop⟩
            · rw [hs'.1] at h1
              exact absurd h1 (by simp)
            · have hdry0 : st.2.dry_run = false := by rw [← hs'.2.1]; exact hdry
              have hb := hblock e he hdry0 hop
              rcases hs'.2.2 _ hin with h2 | h2
              · exact hb.2 h2
              · exact hb.1 h2
        · rw [P_dry_run_eq]
          exact hs'.2.1
        · intro x hx
          rcases P_files_sub' w bd _ s x hx with h1 | h1
          · exact hs'.2.2 x h1
          · exact Or.inr h1
      · rw [hte]
        exact hs')
    ⟨hnil, rfl, fun x hx => Or.inl hx⟩).1

/-- Entries appearing in the cleaned or would-clean lists after a
directory-mode fold come from the start state or from the candidate
list. -/
theorem dirFold_entries (w : CleanupWorld) (bd : Option PathT)
    (L : List PathT) (st : FS × CleanupResult) :
    (∀ x ∈ (L.foldl (dirStep w bd) st).2.cleaned_files,
      x ∈ st.2.cleaned_files ∨ x ∈ L) ∧
    (∀ x ∈ (L.foldl (dirStep w bd) st).2.would_clean_files,
      x ∈ st.2.would_clean_files ∨ x ∈ L) :=
  foldl_inv (dirStep w bd)
    (fun s => (∀ x ∈ s.2.cleaned_files, x ∈ st.2.cleaned_files ∨ x ∈ L) ∧
      (∀ x ∈ s.2.would_clean_files, x ∈ st.2.would_clean_files ∨ x ∈ L)) L st
    (fun s p hp hs => by
      have hs' : (∀ x ∈ s.2.cleaned_files, x ∈ st.2.cleaned_files ∨ x ∈ L) ∧
          (∀ x ∈ s.2.would_clean_files, x ∈ st.2.would_clean_files ∨ x ∈ L) := hs
      constructor
      · intro x hx
        rcases P_cleaned_sub w bd p s x hx with h1 | ⟨rfl, _, _, _⟩
        · exact hs'.1 x h1
        · exact Or.inr hp
      · intro x hx
        rcases P_would_sub w bd p s x hx with h1 | ⟨rfl, _⟩
        · exact hs'.2 x h1
        · exact Or.inr hp)
    ⟨fun x hx => Or.inl hx, fun x hx => Or.inl hx⟩

theorem texFold_entries (w : CleanupWorld) (tex_file : PathT)
    (bd : Option PathT) (exts : List String) (st : FS × CleanupResult) :
    (∀ x ∈ (exts.foldl (texStep w tex_file bd) st).2.cleaned_files,
      x ∈ st.2.cleaned_files ∨ ∃ e ∈ exts, x = texProbe tex_file e) ∧
    (∀ x ∈ (exts.foldl (texStep w tex_file bd) st).2.would_clean_files,
      x ∈ st.2.would_clean_files ∨ ∃ e ∈ exts, x = texProbe tex_file e) :=
  foldl_inv (texStep w tex_file bd)
    (fun s => (∀ x ∈ s.2.cleaned_files,
        x ∈ st.2.cleaned_files ∨ ∃ e ∈ exts, x = texProbe tex_file e) ∧
      (∀ x ∈ s.2.would_clean_files,
        x ∈ st.2.would_clean_files ∨ ∃ e ∈ exts, x = texProbe tex_file e))
    exts st
    (fun s e he hs => by
      have hs' : (∀ x ∈ s.2.cleaned_files,
          x ∈ st.2.cleaned_files ∨ ∃ e' ∈ exts, x = texProbe tex_file e') ∧
        (∀ x ∈ s.2.would_clean_files,
          x ∈ st.2.would_clean_files ∨ ∃ e' ∈ exts, x = texProbe tex_file e') := hs
      rcases texStep_cases w tex_file bd s e with hte | hte
      · constructor
        · intro x hx
          rw [hte] at hx
          rcases P_cleaned_sub w bd _ s x hx with h1 | ⟨rfl, _, _, _⟩
          · exact hs'.1 x h1
          · exact Or.inr ⟨e, he, rfl⟩
        · intro x hx
          rw [hte] at hx
          rcases P_would_sub w bd _ s x hx with h1 | ⟨rfl, _⟩
          · exact hs'.2 x h1
          · exact Or.inr ⟨e, he, rfl⟩
      · rw [hte]
        exact hs')
    ⟨fun x hx => Or.inl hx, fun x hx => Or.inl hx⟩

theorem addDir_files (q : PathT) (fs : FS) : (addDir q fs).files = fs.files := by
  unfold addDir
  split_ifs <;> rfl

theorem mem_addDir_of_mem {q : PathT} {fs : FS} {x : PathT}
    (h : x ∈ fs.dirs) : x ∈ (addDir q fs).dirs := by
  unfold addDir
  split_ifs
  · exact h
  · exact List.mem_append_left _ h

theorem P_dirs_eq (w : CleanupWorld) (bd : Option PathT) (q : PathT)
    (st : FS × CleanupResult) :
    (_process_file_for_cleanup w bd q st).1.dirs = st.1.dirs := by
  obtain ⟨fs, r⟩ := st
  rcases bd with _ | b <;>
    (unfold _process_file_for_cleanup
     simp only
     split_ifs) <;> simp [removeFile, addFile] <;> split_ifs <;> rfl

theorem fold_dirs_eq_dir (w : CleanupWorld) (bd : Option PathT)
    (L : List PathT) (st : FS × CleanupResult) :
    (L.foldl (dirStep w bd) st).1.dirs = st.1.dirs :=
  foldl_inv (dirStep w bd) (fun s => s.1.dirs = st.1.dirs) L st
    (fun s p _ hs => by
      have hs' : s.1.dirs = st.1.dirs := hs
      show (_process_file_for_cleanup w bd p s).1.dirs = st.1.dirs
      rw [P_dirs_eq]
      exact hs') rfl

theorem fold_dirs_eq_tex (w : CleanupWorld) (tex_file : PathT)
    (bd : Option PathT) (exts : List String) (st : FS × CleanupResult) :
    (exts.foldl (texStep w tex_file bd) st).1.dirs = st.1.dirs :=
  foldl_inv (texStep w tex_file bd) (fun s => s.1.dirs = st.1.dirs) exts st
    (fun s e _ hs => by
      have hs' : s.1.dirs = st.1.dirs := hs
      show (texStep w tex_file bd s e).1.dirs = st.1.dirs
      rcases texStep_cases w tex_file bd s e with he | he <;> rw [he]
      · rw [P_dirs_eq]
        exact hs'
      · exact hs') rfl

theorem phase1_files (w : CleanupWorld) (ts : String) (fs0 : FS) (p : PathT)
    (r0 : CleanupResult) (d cb : Bool) :
    (cleanPhase1 w ts fs0 p r0 d cb).1.files = fs0.files := by
  unfold cleanPhase1
  split_ifs <;> simp [addDir_files]

theorem phase1_dirs_mem (w : CleanupWorld) (ts : String) (fs0 : FS) (p : PathT)
    (r0 : CleanupResult) (d cb : Bool) {x : PathT} (h : x ∈ fs0.dirs) :
    x ∈ (cleanPhase1 w ts fs0 p r0 d cb).1.dirs := by
  unfold cleanPhase1
  split_ifs
  · exact mem_addDir_of_mem h
  · exact h
  · exact h

theorem phase1_bd_cases (w : CleanupWorld) (ts : String) (fs0 : FS) (p : PathT)
    (r0 : CleanupResult) (d cb : Bool) :
    (cleanPhase1 w ts fs0 p r0 d cb).2.1 = none ∨
      (cleanPhase1 w ts fs0 p r0 d cb).2.1 = some (backupDirPath fs0 p ts) := by
  unfold cleanPhase1
  split_ifs <;> simp

theorem phase1_bd_isSome (w : CleanupWorld) (ts : String) (fs0 : FS) (p : PathT)
    (r0 : CleanupResult) (d cb : Bool) :
    (cleanPhase1 w ts fs0 p r0 d cb).2.1.isSome =
      (decide (cb = true ∧ d = false) && w.backupMkdirOk) := by
  unfold cleanPhase1
  split_ifs with h1 h2 <;> simp_all <;> omega

theorem phase1_r_proj (w : CleanupWorld) (ts : String) (fs0 : FS) (p : PathT)
    (r0 : CleanupResult) (d cb : Bool) :
    (cleanPhase1 w ts fs0 p r0 d cb).2.2.dry_run = r0.dry_run ∧
    (cleanPhase1 w ts fs0 p r0 d cb).2.2.cleaned_files = r0.cleaned_files ∧
    (cleanPhase1 w ts fs0 p r0 d cb).2.2.would_clean_files = r0.would_clean_files ∧
    (cleanPhase1 w ts fs0 p r0 d cb).2.2.cleaned_files_count = r0.cleaned_files_count := by
  unfold cleanPhase1
  split_ifs <;> exact ⟨rfl, rfl, rfl, rfl⟩

theorem dispatch_tex_eq (w : CleanupWorld) (exts : List String)
    (bd : Option PathT) (rec : Bool) (p : PathT) (fs1 : FS) (r1 : CleanupResult)
    (h1 : p ∈ fs1.files) (h2 : pySuffixS (lastName p) = ".tex") :
    cleanDispatch w exts bd rec p fs1 r1 =
      exts.foldl (texStep w p bd)
        (fs1, { r1 with tex_file_path := some p,
                        directory_path := some p.dropLast }) := by
  unfold cleanDispatch
  rw [if_pos h1, if_pos h2]
  rfl

theorem dispatch_single_eq (w : CleanupWorld) (exts : List String)
    (bd : Option PathT) (rec : Bool) (p : PathT) (fs1 : FS) (r1 : CleanupResult)
    (h1 : p ∈ fs1.files) (h2 : pySuffixS (lastName p) ≠ ".tex") :
    cleanDispatch w exts bd rec p fs1 r1 =
      _clean_single_file w p exts bd
        (fs1, { r1 with tex_file_path := some p,
                        directory_path := some p.dropLast }) := by
  unfold cleanDispatch
  rw [if_pos h1, if_neg h2]

theorem dispatch_dir_eq (w : CleanupWorld) (exts : List String)
    (bd : Option PathT) (rec : Bool) (p : PathT) (fs1 : FS) (r1 : CleanupResult)
    (h1 : p ∉ fs1.files) :
    cleanDispatch w exts bd rec p fs1 r1 =
      (find_auxiliary_files fs1 p exts rec).foldl (dirStep w bd)
        (fs1, { r1 with directory_path := some p }) := by
  unfold cleanDispatch
  rw [if_neg h1]
  rfl

theorem find_eq_of_files_eq {fs fs' : FS} (h : fs.files = fs'.files)
    (dir : PathT) (exts : List String) (rec : Bool) :
    find_auxiliary_files fs dir exts rec = find_auxiliary_files fs' dir exts rec := by
  unfold find_auxiliary_files
  rw [h]

theorem mem_find_iff {fs : FS} {dir : PathT} {exts : List String} {rec : Bool}
    {q : PathT} :
    q ∈ find_auxiliary_files fs dir exts rec ↔
      q ∈ fs.files ∧ underDir rec dir q = true ∧
        pySuffixS (lastName q) ∈ exts ∧
        pySuffixS (lastName q) ∉ PROTECTED_EXTENSIONS := by
  unfold find_auxiliary_files
  simp [List.mem_filter]
  tauto

theorem opRemoves_congr {w : CleanupWorld} {bd bd' : Option PathT} {q : PathT}
    (h : bd.isSome = bd'.isSome) : opRemoves w bd q = opRemoves w bd' q := by
  rcases bd with _ | b <;> rcases bd' with _ | b' <;> simp_all [opRemoves]

theorem dropLast_append_lastName {p : PathT} (hp : p ≠ []) :
    p.dropLast ++ [lastName p] = p := by
  unfold lastName
  rw [List.getLastD_eq_getLast? ]
  rw [List.getLast?_eq_getLast p hp]
  simp [List.dropLast_append_getLast hp]

theorem length_dropLast_lt {p : PathT} (hp : p ≠ []) :
    p.dropLast.length < p.length := by
  rcases p with _ | ⟨a, t⟩
  · exact absurd rfl hp
  · simp [List.length_dropLast]

theorem not_copy_of_parent_eq {q p : PathT} {nm : String} {base : PathT}
    (hq : q.dropLast = base) :
    ¬ isCopyPath (some (base ++ [nm])) q := by
  rintro ⟨b, hb, hqb⟩
  injection hb with hb
  subst hb
  rw [hq] at hqb
  have := congrArg List.length hqb
  simp at this

theorem backupDirPath_parent (fs : FS) (p : PathT) (ts : String) :
    ∃ nm, backupDirPath fs p ts = p.dropLast ++ [nm] := by
  unfold backupDirPath
  split_ifs
  · exact ⟨_, rfl⟩
  · exact ⟨_, rfl⟩

theorem backup_name_ne (s ts : String) : "backup_" ++ s ++ "_" ++ ts ≠ s := by
  intro h
  have hlen := congrArg String.length h
  have h7 : ("backup_" : String).length = 7 := rfl
  have h1 : ("_" : String).length = 1 := rfl
  simp only [String.length_append, h7, h1] at hlen
  omega

theorem data_append (s t : String) : (s ++ t).data = s.data ++ t.data := by
  rcases s with ⟨a⟩
  rcases t with ⟨b⟩
  rfl

theorem revSplitAtDot_append (l₂ : List Char) :
    ∀ l₁ : List Char, '.' ∈ l₁ →
      ∃ a b, revSplitAtDot l₁ = some (a, b) ∧
        revSplitAtDot (l₁ ++ l₂) = some (a, b ++ l₂)
  | [] => by simp
  | c :: t => by
      intro h
      by_cases hc : c = '.'
      · subst hc
        exact ⟨[], t, by simp [revSplitAtDot], by simp [revSplitAtDot]⟩
      · have ht : '.' ∈ t := by
          rcases List.mem_cons.mp h with h1 | h1
          · exact absurd h1.symm hc
          · exact h1
        obtain ⟨a, b, h1, h2⟩ := revSplitAtDot_append l₂ t ht
        refine ⟨c :: a, b, ?_, ?_⟩
        · simp [revSplitAtDot, hc, h1]
        · simp [List.cons_append, revSplitAtDot, hc, h2]

theorem pySuffixL_append_cases (stem ext : List Char) (h : '.' ∈ ext) :
    pySuffixL (stem ++ ext) = pySuffixL ext ∨
      pySuffixL (stem ++ ext) = pySuffixL ('x' :: ext) := by
  have hrev : '.' ∈ ext.reverse := by simpa using h
  obtain ⟨a, b, h1, h2⟩ := revSplitAtDot_append stem.reverse ext.reverse hrev
  obtain ⟨a2, b2, h3, h4⟩ := revSplitAtDot_append ['x'] ext.reverse hrev
  rw [h1] at h3
  simp only [Option.some.injEq, Prod.mk.injEq] at h3
  obtain ⟨h3a, h3b⟩ := h3
  subst h3a
  subst h3b
  have e1 : (stem ++ ext).reverse = ext.reverse ++ stem.reverse := by
    simp [List.reverse_append]
  have e2 : ('x' :: ext).reverse = ext.reverse ++ ['x'] := by simp
  unfold pySuffixL
  rw [e1, h2, e2, h4, h1]
  by_cases hb : b ++ stem.reverse = []
  · left
    have hbnil : b = [] := (List.append_eq_nil.mp hb).1
    rw [hb, hbnil]
    try simp
  · right
    have hx : b ++ ['x'] ≠ [] := by simp
    by_cases hanil : a = []
    · simp [hanil]
    · simp [hanil, hb, hx]

theorem pySuffixS_append_cases (stem ext : String) (h : '.' ∈ ext.data) :
    pySuffixS (stem ++ ext) = pySuffixS ext ∨
      pySuffixS (stem ++ ext) = pySuffixS ("x" ++ ext) := by
  unfold pySuffixS
  rw [data_append, data_append]
  have hx : ("x" : String).data = ['x'] := rfl
  rw [hx]
  rcases pySuffixL_append_cases stem.data ext.data h with h1 | h1 <;> rw [h1]
  · exact Or.inl rfl
  · exact Or.inr rfl

theorem getLastD_append_one {α : Type} (x : α) :
    ∀ (l : List α) (d : α), (l ++ [x]).getLastD d = x
  | [], _ => rfl
  | a :: t, d => by
      rw [List.cons_append, List.getLastD_cons]
      exact getLastD_append_one x t a

theorem lastName_append_one (l : List String) (x : String) :
    lastName (l ++ [x]) = x :=
  getLastD_append_one x l ""

/-- Every default auxiliary extension contains a dot, and its own pathlib
suffix — whether the stem before it is empty or not — is unprotected. -/
theorem default_exts_safe :
    ∀ e ∈ DEFAULT_CLEANUP_EXTENSIONS,
      '.' ∈ e.data ∧ pySuffixS e ∉ PROTECTED_EXTENSIONS ∧
        pySuffixS ("x" ++ e) ∉ PROTECTED_EXTENSIONS := by decide

theorem default_protected_disjoint :
    ∀ e ∈ DEFAULT_CLEANUP_EXTENSIONS, e ∉ PROTECTED_EXTENSIONS := by decide

/-- A tex-mode probe built from a default extension never carries a
protected suffix. -/
theorem texProbe_not_protected (p : PathT) (e : String)
    (he : e ∈ DEFAULT_CLEANUP_EXTENSIONS) :
    pySuffixS (lastName (texProbe p e)) ∉ PROTECTED_EXTENSIONS := by
  obtain ⟨hdot, h1, h2⟩ := default_exts_safe e he
  unfold texProbe
  rw [lastName_append_one]
  rcases pySuffixS_append_cases (pyStemS (lastName p)) e hdot with h | h <;> rw [h]
  · exact h1
  · exact h2

theorem clean_latex_ok (w : CleanupWorld) (ts : String) (fs0 : FS) (p : PathT)
    (extensions : Option (List String)) (d rec cb : Bool)
    (hp : p ≠ []) (hex : p ∈ fs0.files ∨ p ∈ fs0.dirs) :
    clean_latex w ts fs0 (some p) extensions d rec cb =
      .ok (cleanBody w ts fs0 p extensions d rec cb) := by
  simp only [clean_latex]
  rw [if_neg hp, if_neg (by
    rintro ⟨hf, hd⟩
    rcases hex with h | h
    · exact hf h
    · exact hd h)]

theorem clean_latex_ok_inv {w : CleanupWorld} {ts : String} {fs0 : FS}
    {p : PathT} {extensions : Option (List String)} {d rec cb : Bool}
    {fs' : FS} {r' : CleanupResult}
    (hok : clean_latex w ts fs0 (some p) extensions d rec cb = .ok (fs', r')) :
    p ≠ [] ∧ (p ∈ fs0.files ∨ p ∈ fs0.dirs) ∧
      (fs', r') = cleanBody w ts fs0 p extensions d rec cb := by
  simp only [clean_latex] at hok
  by_cases hp : p = []
  · rw [if_pos hp] at hok
    exact absurd hok (by simp)
  · rw [if_neg hp] at hok
    by_cases hex : p ∉ fs0.files ∧ p ∉ fs0.dirs
    · rw [if_pos hex] at hok
      exact absurd hok (by simp)
    · rw [if_neg hex] at hok
      injection hok with h
      exact ⟨hp, by tauto, h.symm⟩

theorem dispatch_count (w : CleanupWorld) (exts : List String)
    (bd : Option PathT) (rec : Bool) (p : PathT) (fs1 : FS) (r1 : CleanupResult)
    (h : r1.cleaned_files_count = r1.cleaned_files.length) :
    (cleanDispatch w exts bd rec p fs1 r1).2.cleaned_files_count =
      (cleanDispatch w exts bd rec p fs1 r1).2.cleaned_files.length := by
  by_cases h1 : p ∈ fs1.files
  · by_cases h2 : pySuffixS (lastName p) = ".tex"
    · rw [dispatch_tex_eq w exts bd rec p fs1 r1 h1 h2]
      exact fold_count_inv_tex w p bd exts _ h
    · rw [dispatch_single_eq w exts bd rec p fs1 r1 h1 h2]
      unfold _clean_single_file
      split_ifs with h3
      · exact P_count_inv w bd p _ h
      · exact h
  · rw [dispatch_dir_eq w exts bd rec p fs1 r1 h1]
    exact fold_count_inv_dir w bd _ _ h

theorem dispatch_unlink (w : CleanupWorld) (exts : List String)
    (bd : Option PathT) (rec : Bool) (p : PathT) (fs1 : FS) (r1 : CleanupResult)
    (h : ∀ q ∈ r1.cleaned_files, w.unlinkOk q = true) :
    ∀ q ∈ (cleanDispatch w exts bd rec p fs1 r1).2.cleaned_files,
      w.unlinkOk q = true := by
  by_cases h1 : p ∈ fs1.files
  · by_cases h2 : pySuffixS (lastName p) = ".tex"
    · rw [dispatch_tex_eq w exts bd rec p fs1 r1 h1 h2]
      exact fold_unlink_inv_tex w p bd exts _ h
    · rw [dispatch_single_eq w exts bd rec p fs1 r1 h1 h2]
      unfold _clean_single_file
      split_ifs with h3
      · intro q hq
        rcases P_cleaned_sub w bd p _ q hq with hc | ⟨rfl, _, _, hop⟩
        · exact h q hc
        · exact opRemoves_unlink hop
      · exact h
  · rw [dispatch_dir_eq w exts bd rec p fs1 r1 h1]
    exact fold_unlink_inv_dir w bd _ _ h

theorem dispatch_dry_cleaned (w : CleanupWorld) (exts : List String)
    (bd : Option PathT) (rec : Bool) (p : PathT) (fs1 : FS) (r1 : CleanupResult)
    (hd : r1.dry_run = true) (hc : r1.cleaned_files = []) :
    (cleanDispatch w exts bd rec p fs1 r1).2.cleaned_files = [] := by
  by_cases h1 : p ∈ fs1.files
  · by_cases h2 : pySuffixS (lastName p) = ".tex"
    · rw [dispatch_tex_eq w exts bd rec p fs1 r1 h1 h2]
      rw [fold_dry_cleaned_tex w p bd exts _ hd]
      exact hc
    · rw [dispatch_single_eq w exts bd rec p fs1 r1 h1 h2]
      unfold _clean_single_file
      split_ifs with h3
      · rw [P_cleaned_dry w bd p _ hd]
        exact hc
      · exact hc
  · rw [dispatch_dir_eq w exts bd rec p fs1 r1 h1]
    rw [fold_dry_cleaned_dir w bd _ _ hd]
    exact hc

theorem dispatch_files_upper (w : CleanupWorld) (exts : List String)
    (bd : Option PathT) (rec : Bool) (p : PathT) (fs1 : FS) (r1 : CleanupResult) :
    ∀ x ∈ (cleanDispatch w exts bd rec p fs1 r1).1.files,
      x ∈ fs1.files ∨ isCopyPath bd x := by
  by_cases h1 : p ∈ fs1.files
  · by_cases h2 : pySuffixS (lastName p) = ".tex"
    · rw [dispatch_tex_eq w exts bd rec p fs1 r1 h1 h2]
      exact fold_files_upper_tex w p bd exts _
    · rw [dispatch_single_eq w exts bd rec p fs1 r1 h1 h2]
      unfold _clean_single_file
      split_ifs with h3
      · intro x hx
        exact P_files_sub' w bd p _ x hx
      · intro x hx
        exact Or.inl hx
  · rw [dispatch_dir_eq w exts bd rec p fs1 r1 h1]
    exact fold_files_upper_dir w bd _ _

theorem dispatch_dirs_eq (w : CleanupWorld) (exts : List String)
    (bd : Option PathT) (rec : Bool) (p : PathT) (fs1 : FS) (r1 : CleanupResult) :
    (cleanDispatch w exts bd rec p fs1 r1).1.dirs = fs1.dirs := by
  by_cases h1 : p ∈ fs1.files
  · by_cases h2 : pySuffixS (lastName p) = ".tex"
    · rw [dispatch_tex_eq w exts bd rec p fs1 r1 h1 h2]
      exact fold_dirs_eq_tex w p bd exts _
    · rw [dispatch_single_eq w exts bd rec p fs1 r1 h1 h2]
      unfold _clean_single_file
      split_ifs with h3
      · exact P_dirs_eq w bd p _
      · rfl
  · rw [dispatch_dir_eq w exts bd rec p fs1 r1 h1]
    exact fold_dirs_eq_dir w bd _ _

/-! ## Cleanup claims -/

/-- Claim C10: in every result `clean_latex` returns, the counter equals
the length of the cleaned list (both are updated together in
`_process_file_for_cleanup`), and in dry-run mode both stay zero/empty. -/
theorem C10_main (w : CleanupWorld) (ts : String) (fs0 : FS) (p : PathT)
    (extensions : Option (List String)) (d rec cb : Bool)
    (fs' : FS) (r' : CleanupResult)
    (hok : clean_latex w ts fs0 (some p) extensions d rec cb = .ok (fs', r')) :
    r'.cleaned_files_count = r'.cleaned_files.length ∧
      (d = true → r'.cleaned_files = [] ∧ r'.cleaned_files_count = 0) := by
  obtain ⟨hp, hex, hbody⟩ := clean_latex_ok_inv hok
  have hr' : r' = (cleanBody w ts fs0 p extensions d rec cb).2 :=
    congrArg Prod.snd hbody
  have hproj := phase1_r_proj w ts fs0 p (initResult d rec) d cb
  have hstart : (cleanPhase1 w ts fs0 p (initResult d rec) d cb).2.2.cleaned_files_count =
      (cleanPhase1 w ts fs0 p (initResult d rec) d cb).2.2.cleaned_files.length := by
    rw [hproj.2.2.2, hproj.2.1]
    rfl
  have hcount : r'.cleaned_files_count = r'.cleaned_files.length := by
    rw [hr']
    exact dispatch_count w (extsOf extensions) _ rec p _ _ hstart
  refine ⟨hcount, ?_⟩
  intro hd
  have hdry1 : (cleanPhase1 w ts fs0 p (initResult d rec) d cb).2.2.dry_run = true := by
    rw [hproj.1]
    exact hd
  have hnil : r'.cleaned_files = [] := by
    rw [hr']
    exact dispatch_dry_cleaned w (extsOf extensions) _ rec p _ _ hdry1 hproj.2.1
  refine ⟨hnil, ?_⟩
  rw [hcount, hnil]
  rfl

/-- Intermediate filesystem and result of the run used by the C10
witness. -/
def c10FS : FS := ⟨[["d", "paper.tex"], ["d", "paper.aux"]], [["d"]]⟩

/-- Result of the C10 witness run. -/
def c10R : CleanupResult :=
  { success := true, error_message := none, tex_file_path := none,
    directory_path := some ["d"], cleaned_files_count := 1,
    cleaned_files := [["d", "paper.aux"]], would_clean_files := [],
    dry_run := false, recursive := false, backup_created := false,
    backup_directory := none }

/-- Witness instantiating `C10_main` on a directory-mode run that
removes one auxiliary file. -/
theorem C10_witness :
    c10R.cleaned_files_count = c10R.cleaned_files.length ∧
      (false = true → c10R.cleaned_files = [] ∧ c10R.cleaned_files_count = 0) :=
  C10_main allOkWorld "ts" c10FS ["d"] none false false false
    ⟨[["d", "paper.tex"]], [["d"]]⟩ c10R rfl

/-- Claim C7: with a valid target path and dry-run off, `clean_latex`
returns (never raises) a result with `success = true`, and any file whose
`unlink` fails is left out of `cleaned_files`. -/
theorem C7_main (w : CleanupWorld) (ts : String) (fs0 : FS) (p : PathT)
    (extensions : Option (List String)) (rec cb : Bool)
    (hp : p ≠ []) (hex : p ∈ fs0.files ∨ p ∈ fs0.dirs) :
    ∃ fs' r', clean_latex w ts fs0 (some p) extensions false rec cb = .ok (fs', r') ∧
      r'.success = true ∧
      ∀ q, w.unlinkOk q = false → q ∉ r'.cleaned_files := by
  refine ⟨(cleanBody w ts fs0 p extensions false rec cb).1,
    (cleanBody w ts fs0 p extensions false rec cb).2,
    clean_latex_ok w ts fs0 p extensions false rec cb hp hex, rfl, ?_⟩
  intro q hq hmem
  have hproj := phase1_r_proj w ts fs0 p (initResult false rec) false cb
  have hstart : ∀ x ∈ (cleanPhase1 w ts fs0 p (initResult false rec) false cb).2.2.cleaned_files,
      w.unlinkOk x = true := by
    rw [hproj.2.1]
    intro x hx
    exact absurd hx (by simp [initResult])
  have := dispatch_unlink w (extsOf extensions) _ rec p _ _ hstart q hmem
  rw [hq] at this
  exact absurd this (by simp)

/-- Witness instantiating `C7_main` on a run whose `unlink` oracle
always fails: the aux file survives and is not reported cleaned. -/
theorem C7_witness :
    ∃ fs' r', clean_latex ⟨fun _ => false, fun _ => true, true, ""⟩ "ts"
        ⟨[["d", "doc.aux"]], [["d"]]⟩ (some ["d"]) none false false false =
        .ok (fs', r') ∧
      r'.success = true ∧
      ∀ q, (⟨fun _ => false, fun _ => true, true, ""⟩ :
        CleanupWorld).unlinkOk q = false → q ∉ r'.cleaned_files :=
  C7_main ⟨fun _ => false, fun _ => true, true, ""⟩ "ts"
    ⟨[["d", "doc.aux"]], [["d"]]⟩ ["d"] none false false
    (by decide) (Or.inr (by decide))

/-- Claim C9: a run whose backup-directory creation fails still succeeds,
with the backup warning carried in `error_message` — `success = true` does
not imply an absent `error_message`. -/
theorem C9_main :
    (okPart (clean_latex ⟨fun _ => true, fun _ => true, false, "disk full"⟩
        "ts" ⟨[["doc.aux"]], [[]]⟩ (some ["doc.aux"]) none false false true)).map
      (fun x => (x.2.success, x.2.error_message)) =
      some (true, some
        "Warning: Backup creation failed: disk full. Continuing without backup.") := by
  decide

/-- Claim C1 fails on the source: in single-`.tex`-file mode with the
protected extension `.pdf` passed explicitly, the sibling PDF is deleted
and listed in `cleaned_files` — `_clean_tex_file_auxiliaries` probes the
caller's extensions with no protected-set filter (`cleanup.py` lines
216–220). -/
theorem C1_counterexample :
    ".pdf" ∈ PROTECTED_EXTENSIONS ∧
    pySuffixS (lastName ["paper.pdf"]) = ".pdf" ∧
    (okPart (clean_latex allOkWorld "ts" ⟨[["paper.tex"], ["paper.pdf"]], [[]]⟩
        (some ["paper.tex"]) (some [".pdf"]) false false false)).map
      (fun x => (x.2.cleaned_files, x.1.files)) =
      some ([["paper.pdf"]], [["paper.tex"]]) := by
  refine ⟨by decide, by decide, by decide⟩

/-- Claim C1 amended: a protected suffix never appears among the cleaned
or would-clean paths in directory mode (whatever the extension list), nor
in any mode under the default extension set; but an explicitly passed
protected extension is honoured in the two single-file modes (see the
counterexample). -/
theorem C1_main (w : CleanupWorld) (ts : String) (fs0 : FS) (p : PathT)
    (extensions : Option (List String)) (d rec cb : Bool)
    (fs' : FS) (r' : CleanupResult)
    (hok : clean_latex w ts fs0 (some p) extensions d rec cb = .ok (fs', r'))
    (q : PathT) (hq : q ∈ r'.cleaned_files ++ r'.would_clean_files)
    (hcase : p ∉ fs0.files ∨ extensions = none) :
    pySuffixS (lastName q) ∉ PROTECTED_EXTENSIONS := by
  obtain ⟨hp, hex, hbody⟩ := clean_latex_ok_inv hok
  have hr' : r' = (cleanBody w ts fs0 p extensions d rec cb).2 :=
    congrArg Prod.snd hbody
  have hproj := phase1_r_proj w ts fs0 p (initResult d rec) d cb
  rw [hr'] at hq
  have hq2 : q ∈ (cleanDispatch w (extsOf extensions)
      (cleanPhase1 w ts fs0 p (initResult d rec) d cb).2.1 rec p
      (cleanPhase1 w ts fs0 p (initResult d rec) d cb).1
      (cleanPhase1 w ts fs0 p (initResult d rec) d cb).2.2).2.cleaned_files ++
    (cleanDispatch w (extsOf extensions)
      (cleanPhase1 w ts fs0 p (initResult d rec) d cb).2.1 rec p
      (cleanPhase1 w ts fs0 p (initResult d rec) d cb).1
      (cleanPhase1 w ts fs0 p (initResult d rec) d cb).2.2).2.would_clean_files := hq
  have hclnil : (cleanPhase1 w ts fs0 p (initResult d rec) d cb).2.2.cleaned_files = [] := by
    rw [hproj.2.1]
    rfl
  have hwcnil : (cleanPhase1 w ts fs0 p (initResult d rec) d cb).2.2.would_clean_files = [] := by
    rw [hproj.2.2.1]
    rfl
  by_cases hpf : p ∈ (cleanPhase1 w ts fs0 p (initResult d rec) d cb).1.files
  · -- single-file targeting modes; hcase forces the default extension set
    have hpf0 : p ∈ fs0.files := by
      rw [← phase1_files w ts fs0 p (initResult d rec) d cb]
      exact hpf
    have hnone : extensions = none := by
      rcases hcase with h | h
      · exact absurd hpf0 h
      · exact h
    subst hnone
    by_cases htex : pySuffixS (lastName p) = ".tex"
    · rw [dispatch_tex_eq w (extsOf none) _ rec p _ _ hpf htex] at hq2
      rcases List.mem_append.mp hq2 with hc | hc
      · rcases (texFold_entries w p _ (extsOf none) _).1 q hc with h1 | ⟨e, he, rfl⟩
        · rw [show ({ (cleanPhase1 w ts fs0 p (initResult d rec) d cb).2.2 with
              tex_file_path := some p,
              directory_path := some p.dropLast} : CleanupResult).cleaned_files =
            (cleanPhase1 w ts fs0 p (initResult d rec) d cb).2.2.cleaned_files from rfl,
            hclnil] at h1
          exact absurd h1 (by simp)
        · exact texProbe_not_protected p e he
      · rcases (texFold_entries w p _ (extsOf none) _).2 q hc with h1 | ⟨e, he, rfl⟩
        · rw [show ({ (cleanPhase1 w ts fs0 p (initResult d rec) d cb).2.2 with
              tex_file_path := some p,
              directory_path := some p.dropLast} : CleanupResult).would_clean_files =
            (cleanPhase1 w ts fs0 p (initResult d rec) d cb).2.2.would_clean_files from rfl,
            hwcnil] at h1
          exact absurd h1 (by simp)
        · exact texProbe_not_protected p e he
    · rw [dispatch_single_eq w (extsOf none) _ rec p _ _ hpf htex] at hq2
      unfold _clean_single_file at hq2
      split_ifs at hq2 with h3
      · rcases List.mem_append.mp hq2 with hc | hc
        · rcases P_cleaned_sub w _ p _ q hc with h1 | ⟨rfl, _, _, _⟩
          · rw [show ({ (cleanPhase1 w ts fs0 p (initResult d rec) d cb).2.2 with
                tex_file_path := some p,
                directory_path := some p.dropLast} : CleanupResult).cleaned_files =
              (cleanPhase1 w ts fs0 p (initResult d rec) d cb).2.2.cleaned_files from rfl,
              hclnil] at h1
            exact absurd h1 (by simp)
          · exact default_protected_disjoint _ h3
        · rcases P_would_sub w _ p _ q hc with h1 | ⟨rfl, _⟩
          · rw [show ({ (cleanPhase1 w ts fs0 p (initResult d rec) d cb).2.2 with
                tex_file_path := some p,
                directory_path := some p.dropLast} : CleanupResult).would_clean_files =
              (cleanPhase1 w ts fs0 p (initResult d rec) d cb).2.2.would_clean_files from rfl,
              hwcnil] at h1
            exact absurd h1 (by simp)
          · exact default_protected_disjoint _ h3
      · rcases List.mem_append.mp hq2 with hc | hc
        · rw [show ({ (cleanPhase1 w ts fs0 p (initResult d rec) d cb).2.2 with
              tex_file_path := some p,
              directory_path := some p.dropLast} : CleanupResult).cleaned_files =
            (cleanPhase1 w ts fs0 p (initResult d rec) d cb).2.2.cleaned_files from rfl,
            hclnil] at hc
          exact absurd hc (by simp)
        · rw [show ({ (cleanPhase1 w ts fs0 p (initResult d rec) d cb).2.2 with
              tex_file_path := some p,
              directory_path := some p.dropLast} : CleanupResult).would_clean_files =
            (cleanPhase1 w ts fs0 p (initResult d rec) d cb).2.2.would_clean_files from rfl,
            hwcnil] at hc
          exact absurd hc (by simp)
  · -- directory mode: the protected filter of `find_auxiliary_files`
    rw [dispatch_dir_eq w (extsOf extensions) _ rec p _ _ hpf] at hq2
    rcases List.mem_append.mp hq2 with hc | hc
    · rcases (dirFold_entries w _ _ _).1 q hc with h1 | h1
      · rw [show ({ (cleanPhase1 w ts fs0 p (initResult d rec) d cb).2.2 with
            directory_path := some p} : CleanupResult).cleaned_files =
          (cleanPhase1 w ts fs0 p (initResult d rec) d cb).2.2.cleaned_files from rfl,
          hclnil] at h1
        exact absurd h1 (by simp)
      · exact (mem_find_iff.mp h1).2.2.2
    · rcases (dirFold_entries w _ _ _).2 q hc with h1 | h1
      · rw [show ({ (cleanPhase1 w ts fs0 p (initResult d rec) d cb).2.2 with
            directory_path := some p} : CleanupResult).would_clean_files =
          (cleanPhase1 w ts fs0 p (initResult d rec) d cb).2.2.would_clean_files from rfl,
          hwcnil] at h1
        exact absurd h1 (by simp)
      · exact (mem_find_iff.mp h1).2.2.2

/-- Witness instantiating `C1_main` on a directory-mode run that is
explicitly asked to clean `.pdf` files as well: the protected `doc.pdf`
still survives and only `doc.aux` is cleaned. -/
theorem C1_witness :
    pySuffixS (lastName ["d", "doc.aux"]) ∉ PROTECTED_EXTENSIONS :=
  C1_main allOkWorld "ts" ⟨[["d", "doc.aux"], ["d", "doc.pdf"]], [["d"]]⟩
    ["d"] (some [".aux", ".pdf"]) false false false
    ⟨[["d", "doc.pdf"]], [["d"]]⟩
    { success := true, error_message := none, tex_file_path := none,
      directory_path := some ["d"], cleaned_files_count := 1,
      cleaned_files := [["d", "doc.aux"]], would_clean_files := [],
      dry_run := false, recursive := false, backup_created := false,
      backup_directory := none }
    rfl ["d", "doc.aux"] (by decide) (Or.inl (by decide))

theorem texProbe_dropLast (p : PathT) (e : String) :
    (texProbe p e).dropLast = p.dropLast :=
  dropLast_append_one _ _

/-- A path whose parent is the target's parent is never a backup copy:
the backup directory is one level deeper. -/
theorem ncopy_parent_of_cases {bd : Option PathT} {fs : FS} {p : PathT}
    {ts : String} (hbd : bd = none ∨ bd = some (backupDirPath fs p ts))
    (x : PathT) (hx : x.dropLast = p.dropLast) : ¬ isCopyPath bd x := by
  rintro ⟨b, hb, hxb⟩
  rcases hbd with h | h
  · rw [h] at hb
    exact absurd hb (by simp)
  · rw [h] at hb
    injection hb with hb
    obtain ⟨nm, hnm⟩ := backupDirPath_parent fs p ts
    rw [← hb, hnm, hx] at hxb
    have := congrArg List.length hxb
    simp at this

/-- A path under a directory target is never a backup copy of that run:
the backup directory is a sibling of the target whose name is strictly
longer than the target's. -/
theorem ncopy_under_of_cases {bd : Option PathT} {fs : FS} {p : PathT}
    {ts : String} (hbd : bd = none ∨ bd = some (backupDirPath fs p ts))
    (hpfs : p ∉ fs.files) (hp : p ≠ []) (rec : Bool) (q : PathT)
    (hq : underDir rec p q = true) : ¬ isCopyPath bd q := by
  rintro ⟨b, hb, hqb⟩
  rcases hbd with h | h
  · rw [h] at hb
    exact absurd hb (by simp)
  · rw [h] at hb
    injection hb with hb
    have hbdp : backupDirPath fs p ts =
        p.dropLast ++ ["backup_" ++ lastName p ++ "_" ++ ts] := by
      unfold backupDirPath
      rw [if_neg hpfs]
    rw [← hb, hbdp] at hqb
    have hqdp : q.dropLast = p := by
      unfold underDir at hq
      split_ifs at hq with hrec
      · simp only [Bool.and_eq_true, decide_eq_true_eq] at hq
        obtain ⟨hsw, hlen⟩ := hq
        obtain ⟨t, rfl⟩ := ((listStartsWith_iff p q).mp hsw)
        rcases t with _ | ⟨x, t'⟩
        · simp at hlen
        · have hlendp := congrArg List.length hqb
          have hp1 : 1 ≤ p.length := by
            rcases p with _ | _
            · exact absurd rfl hp
            · simp
          simp [List.length_dropLast] at hlendp
          have ht' : t' = [] := List.length_eq_zero.mp (by omega)
          subst ht'
          exact dropLast_append_one p x
      · exact of_decide_eq_true hq
    rw [hqdp] at hqb
    have hlast : lastName p = "backup_" ++ lastName p ++ "_" ++ ts := by
      conv_lhs => rw [hqb]
      rw [lastName_append_one]
    exact backup_name_ne (lastName p) ts hlast.symm

/-- The processing of one file cleans nothing when the state starts empty
and the file is blocked. -/
theorem P_cleaned_nil (w : CleanupWorld) (bd : Option PathT) (q : PathT)
    (st : FS × CleanupResult) (hnil : st.2.cleaned_files = [])
    (hblock : st.2.dry_run = false → opRemoves w bd q = true →
      q ∉ st.1.files) :
    (_process_file_for_cleanup w bd q st).2.cleaned_files = [] := by
  rcases hcl : (_process_file_for_cleanup w bd q st).2.cleaned_files with _ | ⟨x, xs⟩
  · rfl
  · exfalso
    have hx : x ∈ (_process_file_for_cleanup w bd q st).2.cleaned_files := by
      rw [hcl]
      exact List.mem_cons_self x xs
    rcases P_cleaned_sub w bd q st x hx with h1 | ⟨rfl, hdry, hin, hop⟩
    · rw [hnil] at h1
      exact absurd h1 (by simp)
    · exact hblock hdry hop hin

/-- The backup-phase directory option of the two runs of one
configuration agrees in presence: whether a backup directory exists
depends only on the flags and the oracle. -/
theorem phase1_isSome_congr (w : CleanupWorld) (ts1 ts2 : String)
    (fs0 fs1 : FS) (p : PathT) (r0 r0' : CleanupResult) (d cb : Bool) :
    (cleanPhase1 w ts1 fs0 p r0 d cb).2.1.isSome =
      (cleanPhase1 w ts2 fs1 p r0' d cb).2.1.isSome := by
  rw [phase1_bd_isSome, phase1_bd_isSome]

/-- Claim C8 fails as stated: when the target is itself an auxiliary file
(single-file mode), the first run deletes it and the second call on the
same target raises `Path not found` instead of returning a result. -/
theorem C8_counterexample :
    (okPart (clean_latex allOkWorld "ts" ⟨[["doc.aux"]], [[]]⟩
        (some ["doc.aux"]) none false false false)).map
      (fun x => (x.1, x.2.cleaned_files)) =
      some ((⟨[], [[]]⟩ : FS), [["doc.aux"]]) ∧
    errPart (clean_latex allOkWorld "ts2" ⟨[], [[]]⟩
        (some ["doc.aux"]) none false false false) =
      some "Path not found: doc.aux" := by
  refine ⟨by decide, by decide⟩

/-- Claim C8 amended: cleanup is idempotent provided the target still
exists after the first run — the target directory, or the target file when
the first run did not delete it.  Under that proviso the second run with
the same arguments and oracles returns a result that removes nothing. -/
theorem C8_main (w : CleanupWorld) (ts1 ts2 : String) (fs0 : FS) (p : PathT)
    (extensions : Option (List String)) (d rec cb : Bool)
    (fs1 : FS) (r1 : CleanupResult)
    (h1 : clean_latex w ts1 fs0 (some p) extensions d rec cb = .ok (fs1, r1))
    (hsurvive : p ∈ fs1.files ∨ (p ∉ fs0.files ∧ p ∈ fs0.dirs)) :
    ∃ fs2 r2, clean_latex w ts2 fs1 (some p) extensions d rec cb = .ok (fs2, r2) ∧
      r2.cleaned_files = [] ∧ r2.cleaned_files_count = 0 := by
  obtain ⟨hp, hex0, hbody⟩ := clean_latex_ok_inv h1
  rcases hphA : cleanPhase1 w ts1 fs0 p (initResult d rec) d cb with ⟨fsA, bdA, rA⟩
  rcases hphB : cleanPhase1 w ts2 fs1 p (initResult d rec) d cb with ⟨fsB, bdB, rB⟩
  have hfs1 : fs1 = (cleanDispatch w (extsOf extensions) bdA rec p fsA rA).1 := by
    have h := congrArg Prod.fst hbody
    have h2 : fs1 = (cleanDispatch w (extsOf extensions)
        (cleanPhase1 w ts1 fs0 p (initResult d rec) d cb).2.1 rec p
        (cleanPhase1 w ts1 fs0 p (initResult d rec) d cb).1
        (cleanPhase1 w ts1 fs0 p (initResult d rec) d cb).2.2).1 := h
    rw [hphA] at h2
    exact h2
  have hfilesA : fsA.files = fs0.files := by
    have h := phase1_files w ts1 fs0 p (initResult d rec) d cb
    rw [hphA] at h
    exact h
  have hfilesB : fsB.files = fs1.files := by
    have h := phase1_files w ts2 fs1 p (initResult d rec) d cb
    rw [hphB] at h
    exact h
  have hbdA : bdA = none ∨ bdA = some (backupDirPath fs0 p ts1) := by
    have h := phase1_bd_cases w ts1 fs0 p (initResult d rec) d cb
    rw [hphA] at h
    exact h
  have hbdB : bdB = none ∨ bdB = some (backupDirPath fs1 p ts2) := by
    have h := phase1_bd_cases w ts2 fs1 p (initResult d rec) d cb
    rw [hphB] at h
    exact h
  have hiso : bdA.isSome = bdB.isSome := by
    have h := phase1_isSome_congr w ts1 ts2 fs0 fs1 p (initResult d rec)
      (initResult d rec) d cb
    rw [hphA, hphB] at h
    exact h
  have hprojA : rA.dry_run = d ∧ rA.cleaned_files = [] ∧
      rA.would_clean_files = [] ∧ rA.cleaned_files_count = 0 := by
    have h := phase1_r_proj w ts1 fs0 p (initResult d rec) d cb
    rw [hphA] at h
    exact h
  have hprojB : rB.dry_run = d ∧ rB.cleaned_files = [] ∧
      rB.would_clean_files = [] ∧ rB.cleaned_files_count = 0 := by
    have h := phase1_r_proj w ts2 fs1 p (initResult d rec) d cb
    rw [hphB] at h
    exact h
  have hok2 : clean_latex w ts2 fs1 (some p) extensions d rec cb =
      .ok (cleanBody w ts2 fs1 p extensions d rec cb) := by
    apply clean_latex_ok w ts2 fs1 p extensions d rec cb hp
    rcases hsurvive with hA | ⟨hBf, hBd⟩
    · exact Or.inl hA
    · right
      have h := dispatch_dirs_eq w (extsOf extensions) bdA rec p fsA rA
      rw [hfs1, h]
      have h2 := phase1_dirs_mem w ts1 fs0 p (initResult d rec) d cb hBd
      rw [hphA] at h2
      exact h2
  have hstartB : rB.cleaned_files_count = rB.cleaned_files.length := by
    rw [hprojB.2.2.2, hprojB.2.1]
    rfl
  suffices hnil : (cleanDispatch w (extsOf extensions) bdB rec p fsB rB).2.cleaned_files = [] by
    have hcnt : (cleanDispatch w (extsOf extensions) bdB rec p fsB rB).2.cleaned_files_count = 0 := by
      rw [dispatch_count w (extsOf extensions) bdB rec p fsB rB hstartB, hnil]
      rfl
    refine ⟨_, _, hok2, ?_, ?_⟩
    · rw [hphB]
      exact hnil
    · rw [hphB]
      exact hcnt
  rcases hsurvive with hA | ⟨hBf, hBd⟩
  · -- the target is a file that the first run did not delete
    have hpfs0 : p ∈ fs0.files := by
      rcases dispatch_files_upper w (extsOf extensions) bdA rec p fsA rA p
          (hfs1 ▸ hA) with h | h
      · rw [hfilesA] at h
        exact h
      · exact absurd h (ncopy_parent_of_cases hbdA p rfl)
    have hpA : p ∈ fsA.files := by
      rw [hfilesA]
      exact hpfs0
    have hpB : p ∈ fsB.files := by
      rw [hfilesB]
      exact hA
    by_cases htex : pySuffixS (lastName p) = ".tex"
    · rw [dispatch_tex_eq w (extsOf extensions) bdB rec p fsB rB hpB htex]
      apply texFold_cleaned_nil
      · exact hprojB.2.1
      · intro e he hdry hop
        have hd : d = false := by
          have h : rB.dry_run = false := hdry
          rw [hprojB.1] at h
          exact h
        have hopA : opRemoves w bdA (texProbe p e) = true := by
          rw [opRemoves_congr hiso]
          exact hop
        have hncA : ¬ isCopyPath bdA (texProbe p e) :=
          ncopy_parent_of_cases hbdA _ (texProbe_dropLast p e)
        refine ⟨ncopy_parent_of_cases hbdB _ (texProbe_dropLast p e), ?_⟩
        intro hqin
        have hqfs1 : texProbe p e ∈ fs1.files := by
          rw [← hfilesB]
          exact hqin
        have hq0 : texProbe p e ∈ fs0.files := by
          rcases dispatch_files_upper w (extsOf extensions) bdA rec p fsA rA _
              (hfs1 ▸ hqfs1) with h | h
          · rw [hfilesA] at h
            exact h
          · exact absurd h hncA
        have hrem := texFold_removes w p bdA (extsOf extensions)
          (fsA, { rA with tex_file_path := some p,
                          directory_path := some p.dropLast }) e
          (show rA.dry_run = false by rw [hprojA.1]; exact hd)
          (show texProbe p e ∈ fsA.files by rw [hfilesA]; exact hq0)
          he hopA hncA
        have hfs1tex : fs1 = ((extsOf extensions).foldl (texStep w p bdA)
            (fsA, { rA with tex_file_path := some p,
                            directory_path := some p.dropLast })).1 := by
          rw [hfs1, dispatch_tex_eq w (extsOf extensions) bdA rec p fsA rA hpA htex]
        rw [← hfs1tex] at hrem
        exact hrem hqfs1
    · rw [dispatch_single_eq w (extsOf extensions) bdB rec p fsB rB hpB htex]
      unfold _clean_single_file
      split_ifs with h3
      · apply P_cleaned_nil
        · exact hprojB.2.1
        · intro hdry hop _
          have hd : d = false := by
            rw [← hprojB.1]
            exact hdry
          have hopA : opRemoves w bdA p = true := by
            rw [opRemoves_congr hiso]
            exact hop
          have hfs1sing : fs1 =
              (_clean_single_file w p (extsOf extensions) bdA
                (fsA, { rA with tex_file_path := some p,
                                directory_path := some p.dropLast })).1 := by
            rw [hfs1, dispatch_single_eq w (extsOf extensions) bdA rec p fsA rA hpA htex]
          unfold _clean_single_file at hfs1sing
          rw [if_pos h3] at hfs1sing
          have hprem := P_removes w bdA p
            (fsA, { rA with tex_file_path := some p,
                            directory_path := some p.dropLast })
            (show rA.dry_run = false by rw [hprojA.1]; exact hd) hpA hopA
          rw [← hfs1sing] at hprem
          exact hprem hA
      · exact hprojB.2.1
  · -- the target is a directory
    have hpnotfs1 : p ∉ fs1.files := by
      intro hmem
      rcases dispatch_files_upper w (extsOf extensions) bdA rec p fsA rA p
          (hfs1 ▸ hmem) with h | h
      · rw [hfilesA] at h
        exact hBf h
      · exact (ncopy_parent_of_cases hbdA p rfl) h
    have hpnotB : p ∉ fsB.files := by
      rw [hfilesB]
      exact hpnotfs1
    have hpnotA : p ∉ fsA.files := by
      rw [hfilesA]
      exact hBf
    rw [dispatch_dir_eq w (extsOf extensions) bdB rec p fsB rB hpnotB]
    apply dirFold_cleaned_nil
    · exact hprojB.2.1
    · intro q hqfind hdry hop
      have hconds := mem_find_iff.mp hqfind
      have hFalse : False := by
        have hd : d = false := by
          rw [← hprojB.1]
          exact hdry
        have hqfs1 : q ∈ fs1.files := by
          rw [← hfilesB]
          exact hconds.1
        have hncA : ¬ isCopyPath bdA q :=
          ncopy_under_of_cases hbdA hBf hp rec q hconds.2.1
        have hq0 : q ∈ fs0.files := by
          rcases dispatch_files_upper w (extsOf extensions) bdA rec p fsA rA q
              (hfs1 ▸ hqfs1) with h | h
          · rw [hfilesA] at h
            exact h
          · exact absurd h hncA
        have hqfindA : q ∈ find_auxiliary_files fsA p (extsOf extensions) rec := by
          apply mem_find_iff.mpr
          exact ⟨by rw [hfilesA]; exact hq0, hconds.2.1, hconds.2.2.1, hconds.2.2.2⟩
        have hopA : opRemoves w bdA q = true := by
          rw [opRemoves_congr hiso]
          exact hop
        have hrem := dirFold_removes w bdA (find_auxiliary_files fsA p (extsOf extensions) rec)
          (fsA, { rA with directory_path := some p }) q
          (show rA.dry_run = false by rw [hprojA.1]; exact hd)
          (show q ∈ fsA.files by rw [hfilesA]; exact hq0)
          hqfindA hopA hncA
        have hfs1dir : fs1 = ((find_auxiliary_files fsA p (extsOf extensions) rec).foldl
            (dirStep w bdA) (fsA, { rA with directory_path := some p })).1 := by
          rw [hfs1, dispatch_dir_eq w (extsOf extensions) bdA rec p fsA rA hpnotA]
        rw [← hfs1dir] at hrem
        exact hrem hqfs1
      exact hFalse.elim

/-- Witness instantiating `C8_main`: after a directory-mode run removes
the only auxiliary file, a second run on the same directory removes
nothing. -/
theorem C8_witness :
    ∃ fs2 r2, clean_latex allOkWorld "t2" ⟨[], [["d"]]⟩ (some ["d"]) none
        false false false = .ok (fs2, r2) ∧
      r2.cleaned_files = [] ∧ r2.cleaned_files_count = 0 :=
  C8_main allOkWorld "t1" "t2" ⟨[["d", "a.aux"]], [["d"]]⟩ ["d"] none
    false false false ⟨[], [["d"]]⟩
    { success := true, error_message := none, tex_file_path := none,
      directory_path := some ["d"], cleaned_files_count := 1,
      cleaned_files := [["d", "a.aux"]], would_clean_files := [],
      dry_run := false, recursive := false, backup_created := false,
      backup_directory := none }
    rfl (Or.inr ⟨by decide, by decide⟩)

end MCPLaTeX
